import Mathlib

/-!
Shallow embedding of `src/main.py` (prompt-able): an interactive shell that
maps aliases to command templates, substitutes arguments into the template,
runs the resulting command line, and formats the captured output.

Python strings are modelled as Lean `String`s (`List Char` underneath);
Python `datetime` values as integers; external collaborators
(prompt_toolkit, pygments, BeautifulSoup, Dynaconf, the subprocess runner)
appear as explicit parameters at their boundary, exactly where the source
calls into them.
-/

namespace PromptAble

/-- The `N.A.` sentinel string (`NOT_AVAILABLE` in the source, line 25). -/
def NOT_AVAILABLE : String := "N.A."

/-- Boolean prefix test on char lists: `startsL s pat` holds iff `pat` is an
initial segment of `s`.  Mirrors Python `s.startswith(pat)`. -/
def startsL : List Char → List Char → Bool
  | _, [] => true
  | [], _ :: _ => false
  | c :: s, p :: ps => c = p && startsL s ps

/-- Python `s.startswith(p)`. -/
def pyStartsWith (s p : String) : Bool := startsL s.data p.data

/-- Python `str.lower` (faithful on ASCII, the range the program uses). -/
def pyLower (s : String) : String := ⟨s.data.map Char.toLower⟩

/-- Python `str.strip`: drop leading and trailing whitespace. -/
def pyStrip (s : String) : String :=
  ⟨((s.data.dropWhile Char.isWhitespace).reverse.dropWhile Char.isWhitespace).reverse⟩

/-- Engine of Python `s.replace(old, new)` for a nonempty pattern
`o :: os`: scan left to right, replacing non-overlapping occurrences and
never rescanning the replacement text. -/
def replaceL (o : Char) (os new : List Char) : List Char → List Char
  | [] => []
  | c :: rest =>
    if startsL (c :: rest) (o :: os) then
      new ++ replaceL o os new (rest.drop os.length)
    else
      c :: replaceL o os new rest
termination_by s => s.length
decreasing_by
  all_goals simp_wf
  all_goals (have h9 := List.length_drop os.length rest; omega)

/-- Python `s.replace(old, new)`; the program only ever replaces nonempty
alias keys, and for an empty pattern we return `s` unchanged. -/
def pyReplace (s old new : String) : String :=
  match old.data with
  | [] => s
  | o :: os => ⟨replaceL o os new.data s.data⟩

/-- Python `s.split(sep)` for a single-character separator, on char lists:
`"".split(' ') = ['']`, separators at the ends produce empty fields. -/
def splitL (sep : Char) : List Char → List (List Char)
  | [] => [[]]
  | c :: rest =>
    if c = sep then [] :: splitL sep rest
    else
      match splitL sep rest with
      | [] => [[c]]
      | h :: t => (c :: h) :: t

/-- Python `s.split(sep)` for a single-character separator. -/
def pySplit (sep : Char) (s : String) : List String :=
  (splitL sep s.data).map fun l => ⟨l⟩

/-- Python `sep.join(items)`. -/
def pyJoin (sep : String) : List String → String
  | [] => ""
  | [x] => x
  | x :: xs => x ++ sep ++ pyJoin sep xs

/-- Char-list form of a single-character join, the inverse of `splitL`. -/
def joinL (sep : Char) : List (List Char) → List Char
  | [] => []
  | [x] => x
  | x :: xs => x ++ sep :: joinL sep xs

/-- One entry of the `commands` mapping of the configuration source:
`{exec: template, output: type, lines: bool}` (spec section 6). -/
structure CmdSpec where
  exec : String
  output : String
  lines : Bool
deriving DecidableEq, Repr

/-- Source `get_keys` (src/main.py lines 28-29): strip and lowercase every
alias key. -/
def get_keys (data : List String) : List String :=
  data.map fun item => pyLower (pyStrip item)

/-- The `Data.available_commands` value recomputed by `Data.update`
(line 41): stripped, lowercased alias keys plus the reserved quit alias. -/
def available_commands (commands : List (String × CmdSpec)) : List String :=
  get_keys (commands.map Prod.fst) ++ ["q"]

/-- Source `CommandValidator.validate` (lines 54-57): strip and lowercase
the typed text, accept iff it starts with one of the available commands;
`false` models the raised `ValidationError` (command not found). -/
def validate (available : List String) (text0 : String) : Bool :=
  let text := pyLower (pyStrip text0)
  available.any fun k => pyStartsWith text k

/-- Source `get_command` (lines 109-113): the first configured alias, in
registry iteration order, that is a prefix of the (already stripped and
lowercased) input, together with its spec; `none` models `(None, None)`. -/
def get_command (input : String) (commands : List (String × CmdSpec)) :
    Option (String × CmdSpec) :=
  commands.find? fun p => pyStartsWith input p.1

/-- Argument extraction in `main` (line 132):
`input.replace(command_key, '').split(' ')` — every occurrence of the
matched key is removed from the input, then the result splits on single
spaces. -/
def extract_args (input cmd_key : String) : List String :=
  pySplit ' ' (pyReplace input cmd_key "")

/-- Identifier characters of Python `string.Template` placeholders
(default idpattern): letters, digits and underscore may continue a name. -/
def isIdentChar (c : Char) : Bool := c.isAlphanum || c = '_'

/-- A placeholder name must start with a letter or underscore. -/
def isIdentStart (c : Char) : Bool := c.isAlpha || c = '_'

/-- Split a char list into its longest identifier-character run and the
remainder (used to read a placeholder name). -/
def takeIdent : List Char → List Char × List Char
  | [] => ([], [])
  | c :: rest =>
    if isIdentChar c then
      let p := takeIdent rest
      (c :: p.1, p.2)
    else ([], c :: rest)

/-- Errors of `string.Template.substitute`: `KeyError` (missing placeholder,
carrying its name; caught by `exec`) and `ValueError` (malformed placeholder
syntax; not caught anywhere in the program). -/
inductive SubstErr where
  | keyError (name : String)
  | valueError
deriving DecidableEq, Repr

/-- Lookup in the keyword-argument mapping passed to `substitute`. -/
def lookupEnv (env : List (String × String)) (name : String) : Option String :=
  (env.find? fun p => p.1 = name).map Prod.snd

/-- Engine of Python `string.Template(t).substitute(env)`: scan for `$$`
(escaped dollar), `${name}` and bare `$name` placeholders, substituting the
bound value (never rescanned) and failing with `KeyError name` on an
unbound placeholder or `ValueError` on a malformed one. -/
def substL (env : List (String × String)) : List Char → Except SubstErr (List Char)
  | [] => .ok []
  | '$' :: rest =>
    match rest with
    | [] => .error .valueError
    | '$' :: rest2 => (fun t => '$' :: t) <$> substL env rest2
    | '{' :: rest2 =>
      match hn : takeIdent rest2 with
      | (n0 :: ns, '}' :: rest3) =>
        if isIdentStart n0 then
          match lookupEnv env ⟨n0 :: ns⟩ with
          | some v => (fun t => v.data ++ t) <$> substL env rest3
          | none => .error (.keyError ⟨n0 :: ns⟩)
        else .error .valueError
      | _ => .error .valueError
    | d :: rest2 =>
      if isIdentStart d then
        match ht : takeIdent rest2 with
        | (ns, rest3) =>
          match lookupEnv env ⟨d :: ns⟩ with
          | some v => (fun t => v.data ++ t) <$> substL env rest3
          | none => .error (.keyError ⟨d :: ns⟩)
      else .error .valueError
  | c :: rest => (fun t => c :: t) <$> substL env rest
termination_by s => s.length
decreasing_by
  all_goals
    have tide : ∀ s : List Char, (takeIdent s).2.length ≤ s.length := by
      intro s
      induction s with
      | nil => simp [takeIdent]
      | cons c rest ih =>
        simp only [takeIdent]
        split
        · simpa using Nat.le_succ_of_le ih
        · simp
  all_goals simp_wf
  all_goals try omega
  all_goals
    first
    | (have h9 := tide rest2; rw [hn] at h9; simp at h9; omega)
    | (have h9 := tide rest2; rw [ht] at h9; simp at h9; omega)

/-- Python `string.Template(command).substitute(env)` on strings. -/
def pySubstitute (env : List (String × String)) (s : String) : Except SubstErr String :=
  (fun l => (⟨l⟩ : String)) <$> substL env s.data

/-- The value returned by the subprocess module's `run` (and, duck-typed,
by the `Bunch` that `exec` builds on failure): the command line, the exit
code, and the captured output streams. -/
structure CompletedProcess where
  args : String
  returncode : Int
  stdout : String
  stderr : String
deriving DecidableEq, Repr

/-- A timestamp field that starts out as the `N.A.` string in the source
(`last_exec_start`). -/
inductive TimeNA where
  | na
  | t (time : Int)
deriving DecidableEq, Repr

/-- A return-code field that starts out as the `N.A.` string in the source
(`last_exec_ret_code`). -/
inductive RetNA where
  | na
  | code (c : Int)
deriving DecidableEq, Repr

/-- The execution-state fields of `Data` (lines 35-37), read by the status
toolbar.  `last_exec_end` is always a timestamp (initialised to
`datetime.now()`). -/
structure ExecState where
  last_exec_start : TimeNA
  last_exec_end : Int
  last_exec_ret_code : RetNA
deriving DecidableEq, Repr

/-- Line 62 of `exec`: keep only arguments that are nonempty after
stripping. -/
def filter_args (args : List String) : List String :=
  args.filter fun a => pyStrip a ≠ ""

/-- The `arg_i` pairs of the dict comprehension on line 63 of `exec`,
enumerating tokens upward from position `i`. -/
def argPairs (i : Nat) : List String → List (String × String)
  | [] => []
  | v :: vs => ("arg_" ++ toString i, v) :: argPairs (i + 1) vs

/-- Lines 63-64 of `exec`: bind each kept token to `arg_i` (`enumerate`
starting at 1) and the placeholder `args` to the newline-joined token list
(`'\n'.join(args)`). -/
def args_dict (args : List String) : List (String × String) :=
  argPairs 1 args ++ [("args", pyJoin "\n" args)]

/-- Building `substitute(**vars, **args_dict)` raises `TypeError` when the
two keyword sets collide; this checks they are disjoint. -/
def kwargsDisjoint (vars extra : List (String × String)) : Bool :=
  vars.all fun p => extra.all fun q => p.1 ≠ q.1

/-- Exceptions that escape `exec` uncaught (its `except` clause catches
only `KeyError`). -/
inductive PyExc where
  | typeError
  | valueError
deriving DecidableEq, Repr

/-- Source `exec` (lines 60-73).  `runner` is the external subprocess
primitive (exit code, stdout, stderr of the expanded command line);
`tStart`/`tEnd` are the two `datetime.now()` readings.  Returns the value
`exec` returns (or the exception that escapes it) together with the updated
execution state: `last_exec_start` is written immediately; `last_exec_end`
and `last_exec_ret_code` only after a successful run. -/
def exec (runner : String → Int × String × String) (tStart tEnd : Int)
    (command : String) (args0 : List String) (vars : List (String × String))
    (st : ExecState) : Except PyExc CompletedProcess × ExecState :=
  let st1 := { st with last_exec_start := .t tStart }
  let args := filter_args args0
  let ad := args_dict args
  if kwargsDisjoint vars ad then
    match pySubstitute (vars ++ ad) command with
    | .ok cmdline =>
      let r := runner cmdline
      (.ok ⟨cmdline, r.1, r.2.1, r.2.2⟩,
        { st1 with last_exec_end := tEnd, last_exec_ret_code := .code r.1 })
    | .error (.keyError name) =>
      (.ok ⟨command, 1, NOT_AVAILABLE, "Variable not found: '" ++ name ++ "'"⟩, st1)
    | .error .valueError => (.error .valueError, st1)
  else (.error .typeError, st1)

/-- A duration field of the toolbar (`N.A.` before the first run). -/
inductive DurNA where
  | na
  | secs (d : Int)
deriving DecidableEq, Repr

/-- The data rendered by `bottom_toolbar` (lines 100-106): the styling of
the return code, the last end timestamp, the duration
`last_exec_end - last_exec_start`, and the return code itself. -/
structure ToolbarView where
  ret_code_style : String
  time : Int
  duration : DurNA
  ret_code : RetNA
deriving DecidableEq, Repr

/-- Source `bottom_toolbar` (lines 100-106). -/
def bottom_toolbar (st : ExecState) : ToolbarView :=
  { ret_code_style :=
      match st.last_exec_ret_code with
      | .na => "red"
      | .code c => if c > 0 then "red" else "green"
    time := st.last_exec_end
    duration :=
      match st.last_exec_start with
      | .na => .na
      | .t s => .secs (st.last_exec_end - s)
    ret_code := st.last_exec_ret_code }

/-- JSON values as handled by the `json` output branch.  Numbers are
modelled as integers and strings as escape-free text (no quote, backslash
or control characters): the fragment of `json.loads`/`json.dumps` the
formatting claims quantify over; floating-point numbers and escape
sequences live outside the embedding. -/
inductive JValue where
  | jnull
  | jbool (b : Bool)
  | jint (n : Int)
  | jstr (s : String)
  | jarr (items : List JValue)
  | jobj (fields : List (String × JValue))
deriving Repr

/-- Whitespace skipped by the JSON parser: space, tab, newline, return. -/
def isJsonWs (c : Char) : Bool := c = ' ' || c = '\t' || c = '\n' || c = '\r'

/-- Drop leading JSON whitespace. -/
def skipWs (s : List Char) : List Char := s.dropWhile isJsonWs

/-- Lexicographic (code-point) strict order on char lists, the order Python
sorts string keys by. -/
def strLtL : List Char → List Char → Bool
  | [], [] => false
  | [], _ :: _ => true
  | _ :: _, [] => false
  | a :: as, b :: bs => if a.val < b.val then true else if a.val = b.val then strLtL as bs else false

/-- Insert one key/value pair into a key-sorted field list. -/
def insertPair (x : String × JValue) : List (String × JValue) → List (String × JValue)
  | [] => [x]
  | y :: ys => if strLtL x.1.data y.1.data then x :: y :: ys else y :: insertPair x ys

/-- Insertion sort of object fields by key (`sort_keys=True`). -/
def sortPairs : List (String × JValue) → List (String × JValue)
  | [] => []
  | x :: xs => insertPair x (sortPairs xs)

mutual

/-- Recursively sort every object's fields by key: `json.dumps(v,
sort_keys=True)` prints exactly `sortJson v` printed without sorting. -/
def sortJson : JValue → JValue
  | .jnull => .jnull
  | .jbool b => .jbool b
  | .jint n => .jint n
  | .jstr s => .jstr s
  | .jarr l => .jarr (sortJsonList l)
  | .jobj fs => .jobj (sortPairs (sortJsonFields fs))

/-- Helper of `sortJson` for array elements. -/
def sortJsonList : List JValue → List JValue
  | [] => []
  | v :: vs => sortJson v :: sortJsonList vs

/-- Helper of `sortJson` for object fields. -/
def sortJsonFields : List (String × JValue) → List (String × JValue)
  | [] => []
  | f :: fs => (f.1, sortJson f.2) :: sortJsonFields fs

end

/-- The `indent=4` indentation at nesting level `lvl`. -/
def indentStr (lvl : Nat) : String := ⟨List.replicate (4 * lvl) ' '⟩

mutual

/-- Printer of `json.dumps(·, indent=4)` (already-sorted values): scalars
inline; nonempty containers open with a newline, print one item per line at
the deeper indentation with `", "`-free `",\n"` separators, and close at
the outer indentation; `": "` separates keys from values. -/
def dumpsVal (lvl : Nat) : JValue → String
  | .jnull => "null"
  | .jbool b => if b then "true" else "false"
  | .jint n => toString n
  | .jstr s => "\"" ++ s ++ "\""
  | .jarr [] => "[]"
  | .jarr (v :: vs) => "[\n" ++ dumpsItems (lvl + 1) v vs ++ "\n" ++ indentStr lvl ++ "]"
  | .jobj [] => "{}"
  | .jobj ((k, v) :: fs) => "\x7b\n" ++ dumpsFields (lvl + 1) k v fs ++ "\n" ++ indentStr lvl ++ "\x7d"
termination_by v => sizeOf v

/-- Helper of `dumpsVal`: array items, one per line. -/
def dumpsItems (lvl : Nat) (v : JValue) (vs : List JValue) : String :=
  match vs with
  | [] => indentStr lvl ++ dumpsVal lvl v
  | w :: ws => indentStr lvl ++ dumpsVal lvl v ++ ",\n" ++ dumpsItems lvl w ws
termination_by sizeOf v + sizeOf vs

/-- Helper of `dumpsVal`: object fields, one per line. -/
def dumpsFields (lvl : Nat) (k : String) (v : JValue) (fs : List (String × JValue)) : String :=
  match fs with
  | [] => indentStr lvl ++ "\"" ++ k ++ "\": " ++ dumpsVal lvl v
  | (k2, v2) :: gs =>
    indentStr lvl ++ "\"" ++ k ++ "\": " ++ dumpsVal lvl v ++ ",\n" ++ dumpsFields lvl k2 v2 gs
termination_by sizeOf v + sizeOf fs

end

/-- Numeric value of a digit run. -/
def natOfDigits : List Char → Nat :=
  List.foldl (fun a c => a * 10 + (c.toNat - '0'.toNat)) 0

/-- Parse a JSON natural number: `0` alone, or a digit run with a nonzero
first digit (the JSON grammar `json.loads` implements: a leading zero ends
the number immediately). -/
def parseNatL (s : List Char) : Option (Nat × List Char) :=
  match s.takeWhile Char.isDigit with
  | [] => none
  | d :: ds =>
    if d = '0' then some (0, s.drop 1)
    else some (natOfDigits (d :: ds), s.drop (d :: ds).length)

/-- Parse a JSON integer (optional minus sign). -/
def parseIntL (s : List Char) : Option (Int × List Char) :=
  match s with
  | [] => none
  | c :: r =>
    if c = '-' then (fun p => (-(p.1 : Int), p.2)) <$> parseNatL r
    else (fun p => ((p.1 : Int), p.2)) <$> parseNatL (c :: r)

/-- Parse the body of a JSON string after the opening quote, up to the
closing quote; escape sequences and control characters are outside the
modelled fragment and rejected. -/
def parseStrL : List Char → Option (List Char × List Char)
  | [] => none
  | c :: r =>
    if c = '"' then some ([], r)
    else if c = '\\' || c.toNat < 32 then none
    else (fun p => (c :: p.1, p.2)) <$> parseStrL r

/-- The value of a duplicate object key: the last binding wins, as in the
Python dict `json.loads` builds. -/
def lastVal (k : String) (v : JValue) (rest : List (String × JValue)) : JValue :=
  match rest.reverse.find? (fun p => p.1 = k) with
  | some p => p.2
  | none => v

/-- Engine of `dedupKeys`: `seen` holds keys already emitted. -/
def dedupAux (seen : List String) : List (String × JValue) → List (String × JValue)
  | [] => []
  | (k, v) :: rest =>
    if seen.contains k then dedupAux seen rest
    else (k, lastVal k v rest) :: dedupAux (k :: seen) rest

/-- Collapse duplicate object keys the way `json.loads` does: each key
appears at its first position, holding its last value. -/
def dedupKeys (fs : List (String × JValue)) : List (String × JValue) :=
  dedupAux [] fs

mutual

/-- Fuel-indexed recursive-descent parser for the modelled JSON fragment,
mirroring `json.loads`: skip whitespace, then dispatch on the first
character; returns the parsed value and the unconsumed remainder. -/
def parseVal : Nat → List Char → Option (JValue × List Char)
  | 0, _ => none
  | fuel + 1, s0 =>
    match skipWs s0 with
    | [] => none
    | c :: r =>
      if c = 'n' then
        if startsL r ['u', 'l', 'l'] then some (.jnull, r.drop 3) else none
      else if c = 't' then
        if startsL r ['r', 'u', 'e'] then some (.jbool true, r.drop 3) else none
      else if c = 'f' then
        if startsL r ['a', 'l', 's', 'e'] then some (.jbool false, r.drop 4) else none
      else if c = '"' then
        (fun p => (JValue.jstr ⟨p.1⟩, p.2)) <$> parseStrL r
      else if c = '[' then
        if (skipWs r).head? = some ']' then some (.jarr [], (skipWs r).tail)
        else (fun p => (JValue.jarr p.1, p.2)) <$> parseArr fuel r
      else if c = '{' then
        if (skipWs r).head? = some '}' then some (.jobj [], (skipWs r).tail)
        else (fun p => (JValue.jobj (dedupKeys p.1), p.2)) <$> parseObjFields fuel r
      else if c = '-' || c.isDigit then
        (fun p => (JValue.jint p.1, p.2)) <$> parseIntL (c :: r)
      else none

/-- Items of a nonempty JSON array, after the opening bracket. -/
def parseArr : Nat → List Char → Option (List JValue × List Char)
  | 0, _ => none
  | fuel + 1, s =>
    match parseVal fuel s with
    | none => none
    | some (v, r) =>
      match skipWs r with
      | [] => none
      | c :: r2 =>
        if c = ',' then
          match parseArr fuel r2 with
          | some (vs, r3) => some (v :: vs, r3)
          | none => none
        else if c = ']' then some ([v], r2)
        else none

/-- Fields of a nonempty JSON object, after the opening brace. -/
def parseObjFields : Nat → List Char → Option (List (String × JValue) × List Char)
  | 0, _ => none
  | fuel + 1, s =>
    match skipWs s with
    | [] => none
    | c :: r =>
      if c = '"' then
        match parseStrL r with
        | none => none
        | some (k, r2) =>
          match skipWs r2 with
          | [] => none
          | c2 :: r3 =>
            if c2 = ':' then
              match parseVal fuel r3 with
              | none => none
              | some (v, r4) =>
                match skipWs r4 with
                | [] => none
                | c3 :: r5 =>
                  if c3 = ',' then
                    match parseObjFields fuel r5 with
                    | some (fs, r6) => some ((⟨k⟩, v) :: fs, r6)
                    | none => none
                  else if c3 = '}' then some ([(⟨k⟩, v)], r5)
                  else none
            else none
      else none

end

/-- Python `json.loads(s)` on the modelled fragment: parse one value and
require only whitespace after it.  The error strings name the two failure
shapes of the CPython parser. -/
def pyJsonLoads (s : String) : Except String JValue :=
  match parseVal (2 * s.data.length + 2) s.data with
  | some (v, r) => if skipWs r = [] then .ok v else .error "Extra data"
  | none => .error "Expecting value"

/-- Source `default` (lines 76-77): replace falsy (empty) text by the
`N.A.` sentinel. -/
def default (text : String) : String := if text ≠ "" then text else NOT_AVAILABLE

/-- Right-align the decimal form of `n` in a field of width 5, as Python
`'{0:>5}'.format(n)` does (wider numbers are not truncated). -/
def padTo5 (n : Nat) : String :=
  let d := toString n
  (⟨List.replicate (5 - d.data.length) ' '⟩ : String) ++ d

/-- The line-numbering post-processing of `format` (line 95): split on
newlines, prefix each line with its `enumerate`-index (which starts at 0),
a period and a tab, and rejoin. -/
def numberLines (s : String) : String :=
  pyJoin "\n" ((pySplit '\n' s).enum.map fun p => padTo5 p.1 ++ ".\t" ++ p.2)

/-- What the local variable `output` of `format` holds after the
type-dispatch: a string (html/json branches) or the whole result object
(the `std` branch assigns `output = data`). -/
inductive FmtVal where
  | str (s : String)
  | proc (p : CompletedProcess)
deriving DecidableEq, Repr

/-- The observable outcome of `format`: a returned string, the returned
result object (type `std`, numbering off), the `UnboundLocalError` raised
when no branch assigned `output`, or the `AttributeError` raised by
`output.split` when `output` is the result object (type `std`, numbering
on). -/
inductive FormatOut where
  | str (s : String)
  | obj (p : CompletedProcess)
  | unboundLocal
  | attrError
deriving DecidableEq, Repr

/-- The diagnostic block printed when stdout fails to parse as JSON
(line 91): parse error, original command line, raw stdout and stderr
(empty streams shown as `N.A.`). -/
def jsonErrorBlock (e : String) (data : CompletedProcess) : String :=
  "\nError: " ++ e ++ "\nInput: " ++ data.args ++ "\nOutput: " ++ default data.stdout ++
    "\nMessage: " ++ default data.stderr ++ "\n"

/-- The type-dispatch stage of `format` (lines 81-93): the three
sequential `if` statements that assign the local variable `output`, or
leave it unassigned (`none`) when no branch matches. -/
def formatDispatch (htmlRender jsonHighlight : String → String) (data : CompletedProcess)
    (type : String) : Option FmtVal :=
  let o1 : Option FmtVal := if type = "html" then some (.str (htmlRender data.stdout)) else none
  let o2 : Option FmtVal :=
    if type = "json" then
      match pyJsonLoads data.stdout with
      | .ok j => some (.str (jsonHighlight (dumpsVal 0 (sortJson j))))
      | .error e => some (.str (jsonErrorBlock e data))
    else o1
  if type = "std" then some (.proc data) else o2

/-- Source `format` (lines 80-97).  `htmlRender` stands for the external
`BeautifulSoup(...).prettify()` + pygments pipeline of the html branch and
`jsonHighlight` for the pygments call of the json branch; both are display
collaborators outside the repository.  The numbering stage (lines 94-95)
runs last, on whatever `output` holds. -/
def format (htmlRender jsonHighlight : String → String) (data : CompletedProcess)
    (type : String) (lines : Bool) : FormatOut :=
  match formatDispatch htmlRender jsonHighlight data type with
  | none => .unboundLocal
  | some (.str s) => if lines then .str (numberLines s) else .str s
  | some (.proc p) => if lines then .attrError else .obj p

/-- What the prompt surface hands the loop body in one iteration: a line of
text, or one of the two signals `prompt` can raise. -/
inductive InputEvent where
  | line (s : String)
  | keyboardInterrupt
  | endOfInput
deriving DecidableEq, Repr

/-- How one iteration of the `while True` loop of `main` (lines 120-139)
ends.  The `except KeyboardInterrupt or EOFError` clause evaluates
`KeyboardInterrupt or EOFError` to `KeyboardInterrupt`, so only that
exception is caught and printed; `EOFError` escapes and kills the
process. -/
inductive IterOutcome where
  | dispatched (cmd_key : String) (spec : CmdSpec)
  | quit
  | ignored
  | printedInterrupt
  | crashed
deriving DecidableEq, Repr

/-- One iteration of the loop body of `main` (lines 120-139): strip and
lowercase the submitted line, look the command up, dispatch it, quit on
`q`, or silently ignore the line; on a signal, apply the (buggy) `except`
clause. -/
def loopIteration (commands : List (String × CmdSpec)) (ev : InputEvent) : IterOutcome :=
  match ev with
  | .keyboardInterrupt => .printedInterrupt
  | .endOfInput => .crashed
  | .line s =>
    let input := pyLower (pyStrip s)
    match get_command input commands with
    | some (k, spec) => .dispatched k spec
    | none => if input = "q" then .quit else .ignored

/-- What one reload attempt of the configuration source produces at the
Dynaconf boundary: a loaded mapping, a missing source (Dynaconf silently
yields an empty settings object), or a malformed source (the first access
on line 41 raises). -/
inductive LoadOutcome where
  | ok (commands : List (String × CmdSpec)) (vars : List (String × String))
  | missing
  | malformed
deriving Repr

/-- The settings reference held by `Data`: a loaded snapshot or the broken
object a malformed reload leaves behind. -/
inductive SettingsRef where
  | loaded (commands : List (String × CmdSpec)) (vars : List (String × String))
  | broken
deriving Repr

/-- The configuration-facing fields of `Data`. -/
structure DataConfig where
  settings : SettingsRef
  available_commands_field : List String
deriving Repr

/-- Source `Data.update` (lines 39-44): unconditionally replace
`self.settings` with the freshly constructed object, then recompute
`available_commands` from it.  There is no error handling: a missing
source yields an empty command mapping (so the alias list collapses to
`["q"]`), and a malformed source raises out of line 41 after `settings`
has already been replaced, leaving `available_commands` stale and the
reload timer unscheduled.  The second component reports whether the
exception escaped. -/
def Data.update (d : DataConfig) (out : LoadOutcome) : DataConfig × Bool :=
  match out with
  | .ok commands vars =>
    ({ settings := .loaded commands vars
       available_commands_field := available_commands commands }, false)
  | .missing =>
    ({ settings := .loaded [] []
       available_commands_field := available_commands [] }, false)
  | .malformed => ({ d with settings := .broken }, true)

/-- Reference decimal printer (most significant digit first), used to
reason about `Nat.repr`/`toString`, which the JSON printer and the line
numbering call. -/
def natDigits (n : Nat) : List Char :=
  if n < 10 then [Nat.digitChar n]
  else natDigits (n / 10) ++ [Nat.digitChar (n % 10)]
termination_by n
decreasing_by
  exact Nat.div_lt_self (by omega) (by norm_num)

/-- A string lies inside the modelled JSON fragment when it contains no
quote, backslash, or control character (exactly the strings `parseStrL`
can produce). -/
def strOk (s : String) : Bool :=
  s.data.all fun c => !(c = '"') && !(c = '\\') && !(c.toNat < 32)

mutual

/-- Well-formedness of a JSON value inside the modelled fragment: every
string and key escape-free, every object's keys distinct — the invariant
`parseVal` maintains on its output. -/
def wfJson : JValue → Bool
  | .jnull => true
  | .jbool _ => true
  | .jint _ => true
  | .jstr s => strOk s
  | .jarr l => wfList l
  | .jobj fs => wfFields fs

/-- Helper of `wfJson` for array elements. -/
def wfList : List JValue → Bool
  | [] => true
  | v :: vs => wfJson v && wfList vs

/-- Helper of `wfJson` for object fields. -/
def wfFields : List (String × JValue) → Bool
  | [] => true
  | (k, v) :: fs => strOk k && fs.all (fun p => !(p.1 = k)) && wfJson v && wfFields fs

end

mutual

/-- Parser fuel sufficient for a value of this shape. -/
def jfuel : JValue → Nat
  | .jarr (v :: vs) => 1 + jfuelItems v vs
  | .jobj ((_, v) :: fs) => 1 + jfuelFields v fs
  | _ => 1
termination_by v => sizeOf v

/-- Parser fuel sufficient for a nonempty item list. -/
def jfuelItems (v : JValue) (vs : List JValue) : Nat :=
  match vs with
  | [] => 1 + jfuel v
  | w :: ws => 1 + jfuel v + jfuelItems w ws
termination_by sizeOf v + sizeOf vs

/-- Parser fuel sufficient for a nonempty field list. -/
def jfuelFields (v : JValue) (fs : List (String × JValue)) : Nat :=
  match fs with
  | [] => 1 + jfuel v
  | (_, v2) :: gs => 1 + jfuel v + jfuelFields v2 gs
termination_by sizeOf v + sizeOf fs

end

/-- Python's substring test `pat in s`, used to state what the diagnostic
block of the json branch contains. -/
def containsSub (s pat : String) : Bool :=
  s.data.tails.any fun t => startsL t pat.data

/-! ## Theorems -/

theorem digitChar_isDigit {d : Nat} (h : d < 10) : (Nat.digitChar d).isDigit = true := by
  interval_cases d <;> decide

theorem digitChar_val {d : Nat} (h : d < 10) : (Nat.digitChar d).toNat - '0'.toNat = d := by
  interval_cases d <;> decide

theorem digitChar_ne_zero {d : Nat} (h1 : d < 10) (h2 : d ≠ 0) : Nat.digitChar d ≠ '0' := by
  interval_cases d <;> simp_all <;> decide

theorem natDigits_ne_nil (n : Nat) : natDigits n ≠ [] := by
  rw [natDigits]
  split <;> simp

theorem natDigits_all_digits (n : Nat) : ∀ c ∈ natDigits n, c.isDigit = true := by
  induction n using natDigits.induct with
  | case1 n h =>
    rw [natDigits, if_pos h]
    simpa using digitChar_isDigit h
  | case2 n h ih =>
    rw [natDigits, if_neg h]
    intro c hc
    rcases List.mem_append.1 hc with h1 | h1
    · exact ih c h1
    · simp only [List.mem_singleton] at h1
      subst h1
      exact digitChar_isDigit (Nat.mod_lt _ (by norm_num))

theorem natDigits_head_ne_zero (n : Nat) (hn : n ≠ 0) :
    ∀ c, (natDigits n).head? = some c → c ≠ '0' := by
  induction n using natDigits.induct with
  | case1 n h =>
    rw [natDigits, if_pos h]
    intro c hc
    simp only [List.head?_cons, Option.some.injEq] at hc
    subst hc
    exact digitChar_ne_zero h hn
  | case2 n h ih =>
    rw [natDigits, if_neg h]
    intro c hc
    have hd : n / 10 ≠ 0 := by omega
    rcases List.exists_cons_of_ne_nil (natDigits_ne_nil (n / 10)) with ⟨d, t, hdt⟩
    rw [hdt] at hc
    simp only [List.cons_append, List.head?_cons, Option.some.injEq] at hc
    subst hc
    exact ih hd d (by rw [hdt]; rfl)

theorem natOfDigits_append_one (l : List Char) (c : Char) :
    natOfDigits (l ++ [c]) = natOfDigits l * 10 + (c.toNat - '0'.toNat) := by
  simp [natOfDigits, List.foldl_append]

theorem natOfDigits_natDigits (n : Nat) : natOfDigits (natDigits n) = n := by
  induction n using natDigits.induct with
  | case1 n h =>
    rw [natDigits, if_pos h]
    simpa [natOfDigits] using digitChar_val h
  | case2 n h ih =>
    rw [natDigits, if_neg h, natOfDigits_append_one, ih,
      digitChar_val (Nat.mod_lt _ (by norm_num))]
    omega

theorem lt_ten_pow_succ (n : Nat) : n < 10 ^ (n + 1) :=
  lt_of_lt_of_le (Nat.lt_two_pow n)
    (le_trans (Nat.pow_le_pow_left (by norm_num) n)
      (Nat.pow_le_pow_right (by norm_num) (Nat.le_succ n)))

theorem toDigitsCore_eq_natDigits (fuel : Nat) :
    ∀ n acc, n < 10 ^ fuel → 1 ≤ fuel →
      Nat.toDigitsCore 10 fuel n acc = natDigits n ++ acc := by
  induction fuel with
  | zero => omega
  | succ f ih =>
    intro n acc hlt _
    simp only [Nat.toDigitsCore]
    by_cases hz : n / 10 = 0
    · have h10 : n < 10 := by omega
      rw [if_pos hz, natDigits, if_pos h10, Nat.mod_eq_of_lt h10]
      rfl
    · have h10 : ¬ n < 10 := by omega
      rw [if_neg hz]
      have hdiv : n / 10 < 10 ^ f := by
        rw [pow_succ] at hlt
        omega
      have hf : 1 ≤ f := by
        by_contra hf0
        have hf' : f = 0 := by omega
        subst hf'
        simp only [pow_zero] at hdiv
        omega
      rw [ih (n / 10) (Nat.digitChar (n % 10) :: acc) hdiv hf]
      conv_rhs => rw [natDigits, if_neg h10]
      simp

theorem nat_repr_eq (n : Nat) : Nat.repr n = (⟨natDigits n⟩ : String) := by
  rw [Nat.repr, Nat.toDigits,
    toDigitsCore_eq_natDigits (n + 1) n [] (lt_ten_pow_succ n) (by omega)]
  simp [List.asString]

theorem toString_nat_eq (n : Nat) : toString n = (⟨natDigits n⟩ : String) :=
  nat_repr_eq n

theorem toString_nat_injective {a b : Nat} (h : toString a = toString b) : a = b := by
  rw [toString_nat_eq, toString_nat_eq] at h
  have : natDigits a = natDigits b := congrArg String.data h
  calc a = natOfDigits (natDigits a) := (natOfDigits_natDigits a).symm
    _ = natOfDigits (natDigits b) := by rw [this]
    _ = b := natOfDigits_natDigits b

/-- C4 counterexample: with output type `raw` the formatter does not return
the captured stdout — no branch of `format` tests for `"raw"` (the
passthrough branch is spelled `"std"`), so the `output` variable is never
assigned and its use raises `UnboundLocalError`. -/
theorem C4_raw_counterexample :
    format (fun s => s) (fun s => s) ⟨"cat x", 0, "hello\n", ""⟩ "raw" false = .unboundLocal ∧
    format (fun s => s) (fun s => s) ⟨"cat x", 0, "hello\n", ""⟩ "raw" false ≠ .str "hello\n" := by
  decide

/-- C4 (amended): the passthrough output type is named `std`, and with line
numbering off it returns the whole execution-result object unchanged (not
the stdout string); the type `raw` matches no branch and leaves `output`
unbound. -/
theorem C4_std_passthrough (hR jH : String → String) (res : CompletedProcess) :
    format hR jH res "std" false = .obj res ∧
    format hR jH res "raw" false = .unboundLocal :=
  ⟨rfl, rfl⟩

/-- C7: of the two prompt signals, only `KeyboardInterrupt` is printed and
survived: the clause `except KeyboardInterrupt or EOFError` evaluates its
expression to `KeyboardInterrupt`, so an end-of-input `EOFError` escapes
the loop and kills the process, contradicting the claim that neither
signal ever terminates it. -/
theorem C7_eof_escapes_loop (commands : List (String × CmdSpec)) :
    loopIteration commands .keyboardInterrupt = .printedInterrupt ∧
    loopIteration commands .endOfInput = .crashed :=
  ⟨rfl, rfl⟩

/-- C8 counterexample: starting from a registry whose alias list is
`["echo", "q"]`, a reload attempt that finds the configuration source
missing leaves `available_commands = ["q"]` — the previous snapshot is not
retained. -/
theorem C8_reload_counterexample :
    (Data.update
        ⟨.loaded [("echo", ⟨"echo ${args}", "std", false⟩)] [],
          available_commands [("echo", ⟨"echo ${args}", "std", false⟩)]⟩
        .missing).1.available_commands_field = ["q"] ∧
    available_commands [("echo", ⟨"echo ${args}", "std", false⟩)] = ["echo", "q"] := by
  constructor <;> rfl

/-- C8 (amended): `Data.update` has no failure handling and never retains
the previous snapshot: a missing source collapses the alias list to just
the reserved quit alias, and a malformed source raises after the settings
reference has already been replaced, leaving the stale alias list paired
with a broken settings object (a partial update). -/
theorem C8_update_discards_snapshot (d : DataConfig) :
    (Data.update d .missing).1.available_commands_field = ["q"] ∧
    (Data.update d .malformed).1.settings = .broken ∧
    (Data.update d .malformed).1.available_commands_field = d.available_commands_field ∧
    (Data.update d .malformed).2 = true :=
  ⟨rfl, rfl, rfl, rfl⟩

/-- C9: when template substitution fails inside `exec`, the function has
already written `last_exec_start` but returns before the writes to
`last_exec_end` and `last_exec_ret_code`, which keep their previous
values; the toolbar consequently shows the old end time with a negative
duration (end minus the newer start) and the stale return code, not the
failed run's sentinel exit code 1 that the synthesized result carries. -/
theorem C9_failed_expansion_frame (runner : String → Int × String × String)
    (tStart tEnd : Int) (command : String) (args0 : List String)
    (vars : List (String × String)) (st : ExecState) (name : String)
    (hdisj : kwargsDisjoint vars (args_dict (filter_args args0)) = true)
    (hsub : pySubstitute (vars ++ args_dict (filter_args args0)) command =
      .error (.keyError name))
    (hlate : st.last_exec_end < tStart) :
    exec runner tStart tEnd command args0 vars st =
      (.ok ⟨command, 1, NOT_AVAILABLE, "Variable not found: '" ++ name ++ "'"⟩,
        { st with last_exec_start := .t tStart }) ∧
    (exec runner tStart tEnd command args0 vars st).2.last_exec_end = st.last_exec_end ∧
    (exec runner tStart tEnd command args0 vars st).2.last_exec_ret_code =
      st.last_exec_ret_code ∧
    (bottom_toolbar (exec runner tStart tEnd command args0 vars st).2).duration =
      .secs (st.last_exec_end - tStart) ∧
    st.last_exec_end - tStart < 0 ∧
    (bottom_toolbar (exec runner tStart tEnd command args0 vars st).2).ret_code =
      st.last_exec_ret_code := by
  have hres : exec runner tStart tEnd command args0 vars st =
      (.ok ⟨command, 1, NOT_AVAILABLE, "Variable not found: '" ++ name ++ "'"⟩,
        { st with last_exec_start := .t tStart }) := by
    simp only [exec, hdisj, if_true, hsub]
  refine ⟨hres, ?_, ?_, ?_, by omega, ?_⟩ <;> rw [hres] <;> rfl

/-- Witness for C9 at a concrete run: template `echo ${arg_2}` with a
single (empty, filtered-out) argument, previous end time 5, new start time
10. -/
theorem C9_failed_expansion_frame_witness :
    exec (fun _ => (0, "", "")) 10 11 "echo ${arg_2}" [""] [] ⟨.na, 5, .code 0⟩ =
      (.ok ⟨"echo ${arg_2}", 1, NOT_AVAILABLE, "Variable not found: '" ++ "arg_2" ++ "'"⟩,
        { (⟨.na, 5, .code 0⟩ : ExecState) with last_exec_start := .t 10 }) ∧
    (exec (fun _ => (0, "", "")) 10 11 "echo ${arg_2}" [""] [] ⟨.na, 5, .code 0⟩).2.last_exec_end =
      (⟨.na, 5, .code 0⟩ : ExecState).last_exec_end ∧
    (exec (fun _ => (0, "", "")) 10 11 "echo ${arg_2}" [""] []
        ⟨.na, 5, .code 0⟩).2.last_exec_ret_code =
      (⟨.na, 5, .code 0⟩ : ExecState).last_exec_ret_code ∧
    (bottom_toolbar
        (exec (fun _ => (0, "", "")) 10 11 "echo ${arg_2}" [""] []
          ⟨.na, 5, .code 0⟩).2).duration =
      .secs ((⟨.na, 5, .code 0⟩ : ExecState).last_exec_end - 10) ∧
    (⟨.na, 5, .code 0⟩ : ExecState).last_exec_end - 10 < 0 ∧
    (bottom_toolbar
        (exec (fun _ => (0, "", "")) 10 11 "echo ${arg_2}" [""] []
          ⟨.na, 5, .code 0⟩).2).ret_code =
      (⟨.na, 5, .code 0⟩ : ExecState).last_exec_ret_code :=
  C9_failed_expansion_frame (fun _ => (0, "", "")) 10 11 "echo ${arg_2}" [""] []
    ⟨.na, 5, .code 0⟩ "arg_2" (by decide)
    (by simp [pySubstitute, substL, takeIdent, lookupEnv, isIdentChar, isIdentStart,
      filter_args, args_dict, argPairs, pyJoin, pyStrip])
    (by decide)

theorem substL_cons_plain (env : List (String × String)) (c : Char) (s : List Char)
    (hc : c ≠ '$') : substL env (c :: s) = (fun t => c :: t) <$> substL env s := by
  conv_lhs => rw [substL.eq_def]
  split
  · rename_i heq
    simp at heq
  · rename_i heq
    simp at heq
    exact absurd heq.1 hc
  · rename_i heq
    simp at heq
    rw [heq.1, heq.2]

theorem substL_append_plain (env : List (String × String)) (lit rest : List Char)
    (hlit : ∀ c ∈ lit, c ≠ '$') :
    substL env (lit ++ rest) = (fun t => lit ++ t) <$> substL env rest := by
  induction lit with
  | nil => cases h : substL env rest <;> simp [h]
  | cons c cs ih =>
    rw [List.cons_append, substL_cons_plain env c _ (hlit c (by simp)),
      ih (fun d hd => hlit d (by simp [hd]))]
    cases h : substL env rest <;> simp [h]

theorem takeIdent_append (name : List Char) (b : Char) (r : List Char)
    (hname : ∀ c ∈ name, isIdentChar c = true) (hb : isIdentChar b = false) :
    takeIdent (name ++ b :: r) = (name, b :: r) := by
  induction name with
  | nil => simp [takeIdent, hb]
  | cons c cs ih =>
    simp only [List.cons_append, takeIdent]
    rw [if_pos (hname c (by simp))]
    simp [ih (fun d hd => hname d (by simp [hd]))]

theorem substL_braced (env : List (String × String)) (n0 : Char) (ns rest : List Char)
    (hid : ∀ c ∈ n0 :: ns, isIdentChar c = true) (hstart : isIdentStart n0 = true) :
    substL env ('$' :: '{' :: ((n0 :: ns) ++ '}' :: rest)) =
      match lookupEnv env ⟨n0 :: ns⟩ with
      | some v => (fun t => v.data ++ t) <$> substL env rest
      | none => .error (.keyError ⟨n0 :: ns⟩) := by
  have htk := takeIdent_append (n0 :: ns) '}' rest hid (by decide)
  conv_lhs => rw [substL.eq_def]
  split
  · rename_i heq
    simp at heq
  · rename_i rest' heq
    simp only [List.cons.injEq] at heq
    obtain ⟨-, h2⟩ := heq
    subst h2
    split
    · rename_i hn
      simp at hn
    · rename_i hn
      simp at hn
    · rename_i rest2 heq2
      simp only [List.cons.injEq] at heq2
      obtain ⟨-, h3⟩ := heq2
      subst h3
      split
      · rename_i n0' ns' rest3 hn
        rw [htk] at hn
        injection hn with h1 h2
        injection h1 with g1 g2
        injection h2 with g3 g4
        subst g1
        subst g2
        subst g4
        rw [if_pos hstart]
      · rename_i hexc
        exact (hexc n0 ns rest htk).elim
    · rename_i hd2 heq2
      simp only [List.cons.injEq] at heq2
      exact absurd heq2.1.symm hd2
  · rename_i c' rest' hvc heq
    simp only [List.cons.injEq] at heq
    exact absurd heq.1.symm hvc

theorem substL_braced_found (env : List (String × String)) (n0 : Char) (ns rest : List Char)
    (v : String) (hid : ∀ c ∈ n0 :: ns, isIdentChar c = true) (hstart : isIdentStart n0 = true)
    (hlook : lookupEnv env ⟨n0 :: ns⟩ = some v) :
    substL env ('$' :: '{' :: ((n0 :: ns) ++ '}' :: rest)) =
      (fun t => v.data ++ t) <$> substL env rest := by
  rw [substL_braced env n0 ns rest hid hstart, hlook]

theorem substL_braced_missing (env : List (String × String)) (n0 : Char) (ns rest : List Char)
    (hid : ∀ c ∈ n0 :: ns, isIdentChar c = true) (hstart : isIdentStart n0 = true)
    (hlook : lookupEnv env ⟨n0 :: ns⟩ = none) :
    substL env ('$' :: '{' :: ((n0 :: ns) ++ '}' :: rest)) = .error (.keyError ⟨n0 :: ns⟩) := by
  rw [substL_braced env n0 ns rest hid hstart, hlook]

/-- A template whose `${name}` placeholder is unbound makes `substitute`
fail with `KeyError name`, whatever follows the placeholder. -/
theorem pySubstitute_missing (env : List (String × String)) (lit name tail : String)
    (hlit : ∀ c ∈ lit.data, c ≠ '$')
    (hname : ∀ c ∈ name.data, isIdentChar c = true)
    (hne : name.data ≠ [])
    (hstart : ∀ c, name.data.head? = some c → isIdentStart c = true)
    (hlook : lookupEnv env name = none) :
    pySubstitute env (lit ++ "$\x7b" ++ name ++ "\x7d" ++ tail) = .error (.keyError name) := by
  rcases hd : name.data with _ | ⟨n0, ns⟩
  · exact absurd hd hne
  have hmk : (⟨n0 :: ns⟩ : String) = name := by
    rw [← hd]
  unfold pySubstitute
  have hdata : (lit ++ "$\x7b" ++ name ++ "\x7d" ++ tail).data =
      lit.data ++ ('$' :: '{' :: ((n0 :: ns) ++ '}' :: tail.data)) := by
    simp [String.data_append, hd]
  rw [hdata, substL_append_plain env lit.data _ hlit,
    substL_braced_missing env n0 ns tail.data (fun c hc => hname c (by rw [hd]; exact hc))
      (hstart n0 (by rw [hd]; rfl)) (by rw [hmk]; exact hlook)]
  simp [hmk]

/-- C3 counterexample: the execution result synthesized after a failed
expansion does not have empty stdout — its stdout is the sentinel string
`N.A.`. -/
theorem C3_counterexample :
    (exec (fun _ => (0, "", "")) 0 0 "${x}" [] [] ⟨.na, 0, .na⟩).1 =
      .ok ⟨"${x}", 1, "N.A.", "Variable not found: 'x'"⟩ ∧
    ("N.A." : String) ≠ "" := by
  constructor
  · simp [exec, pySubstitute, substL, takeIdent, lookupEnv, isIdentChar, isIdentStart,
      filter_args, args_dict, argPairs, pyJoin, kwargsDisjoint, NOT_AVAILABLE]
  · decide

/-- C3 (amended): if the template references a `${name}` placeholder absent
from the merged binding set, expansion fails with a `KeyError` carrying the
name, the subprocess is never invoked (the outcome is independent of the
runner), and `exec` instead returns a synthesized result whose stdout is
the `N.A.` sentinel (not empty), whose stderr is the expansion error
message naming the placeholder, and whose exit code is the fixed non-zero
sentinel 1 — so downstream formatting proceeds uniformly and nothing
raises. -/
theorem C3_missing_placeholder (runner runner2 : String → Int × String × String)
    (tStart tEnd tStart2 tEnd2 : Int) (lit name tail : String) (args0 : List String)
    (vars : List (String × String)) (st st2 : ExecState)
    (hdisj : kwargsDisjoint vars (args_dict (filter_args args0)) = true)
    (hlit : ∀ c ∈ lit.data, c ≠ '$')
    (hname : ∀ c ∈ name.data, isIdentChar c = true)
    (hne : name.data ≠ [])
    (hstart : ∀ c, name.data.head? = some c → isIdentStart c = true)
    (hlook : lookupEnv (vars ++ args_dict (filter_args args0)) name = none) :
    (exec runner tStart tEnd (lit ++ "$\x7b" ++ name ++ "\x7d" ++ tail) args0 vars st).1 =
      .ok ⟨lit ++ "$\x7b" ++ name ++ "\x7d" ++ tail, 1, NOT_AVAILABLE,
        "Variable not found: '" ++ name ++ "'"⟩ ∧
    (exec runner tStart tEnd (lit ++ "$\x7b" ++ name ++ "\x7d" ++ tail) args0 vars st).1 =
      (exec runner2 tStart2 tEnd2 (lit ++ "$\x7b" ++ name ++ "\x7d" ++ tail) args0 vars st2).1 := by
  have hsub := pySubstitute_missing (vars ++ args_dict (filter_args args0)) lit name tail
    hlit hname hne hstart hlook
  constructor
  · simp only [exec, hdisj, if_true, hsub]
  · simp only [exec, hdisj, if_true, hsub]

/-- Witness for C3 at a concrete input: template `echo ${arg_2}` invoked
with the single argument `hi`. -/
theorem C3_missing_placeholder_witness :
    (exec (fun _ => (0, "", "")) 0 1 ("echo " ++ "$\x7b" ++ "arg_2" ++ "\x7d" ++ "") ["hi"] []
        ⟨.na, 0, .na⟩).1 =
      .ok ⟨"echo " ++ "$\x7b" ++ "arg_2" ++ "\x7d" ++ "", 1, NOT_AVAILABLE,
        "Variable not found: '" ++ "arg_2" ++ "'"⟩ ∧
    (exec (fun _ => (0, "", "")) 0 1 ("echo " ++ "$\x7b" ++ "arg_2" ++ "\x7d" ++ "") ["hi"] []
        ⟨.na, 0, .na⟩).1 =
      (exec (fun _ => (7, "x", "y")) 2 3 ("echo " ++ "$\x7b" ++ "arg_2" ++ "\x7d" ++ "") ["hi"] []
        ⟨.t 0, 9, .code 4⟩).1 :=
  C3_missing_placeholder (fun _ => (0, "", "")) (fun _ => (7, "x", "y")) 0 1 2 3
    "echo " "arg_2" "" ["hi"] [] ⟨.na, 0, .na⟩ ⟨.t 0, 9, .code 4⟩
    (by decide) (by decide) (by decide) (by decide) (by decide)
    (by simp [lookupEnv, filter_args, args_dict, argPairs, pyStrip, pyJoin]; decide)

theorem lookupEnv_cons (k v : String) (env : List (String × String)) (t : String) :
    lookupEnv ((k, v) :: env) t = if k = t then some v else lookupEnv env t := by
  by_cases h : k = t
  · simp [lookupEnv, List.find?_cons_of_pos, h]
  · rw [lookupEnv, List.find?_cons_of_neg _ (by simpa using h), if_neg h]
    rfl

theorem lookupEnv_append (e1 e2 : List (String × String)) (t : String) :
    lookupEnv (e1 ++ e2) t = (lookupEnv e1 t).or (lookupEnv e2 t) := by
  unfold lookupEnv
  rw [List.find?_append]
  cases h : List.find? (fun p => p.1 = t) e1 <;> simp [h]

theorem arg_key_ne_args (t : String) : ("arg_" ++ t) ≠ "args" := by
  intro h
  have hd := congrArg String.data h
  rw [String.data_append] at hd
  have hd2 : ('a' :: 'r' :: 'g' :: '_' :: t.data) = ['a', 'r', 'g', 's'] := hd
  simp at hd2

theorem lookup_argPairs (vs : List String) : ∀ (start i : Nat) (h : i < vs.length),
    lookupEnv (argPairs start vs) ("arg_" ++ toString (start + i)) = some (vs.get ⟨i, h⟩) := by
  induction vs with
  | nil =>
    intro start i h
    simp at h
  | cons v vs ih =>
    intro start i h
    cases i with
    | zero =>
      rw [argPairs, lookupEnv_cons, if_pos (by rw [Nat.add_zero])]
      rfl
    | succ j =>
      rw [argPairs, lookupEnv_cons, if_neg, show start + (j + 1) = start + 1 + j by omega,
        ih (start + 1) j (by simpa using Nat.lt_of_succ_lt_succ h)]
      · rfl
      · intro hc
        have h2 : toString start = toString (start + (j + 1)) := by
          have := congrArg String.data hc
          rw [String.data_append, String.data_append] at this
          exact String.ext (List.append_cancel_left this)
        have := toString_nat_injective h2
        omega

theorem lookup_argPairs_args (vs : List String) : ∀ start,
    lookupEnv (argPairs start vs) "args" = none := by
  induction vs with
  | nil => intro start; rfl
  | cons v vs ih =>
    intro start
    rw [argPairs, lookupEnv_cons, if_neg (arg_key_ne_args _), ih]

theorem lookup_args_dict_argi (args : List String) (i : Nat) (h : i < args.length) :
    lookupEnv (args_dict args) ("arg_" ++ toString (i + 1)) = some (args.get ⟨i, h⟩) := by
  rw [args_dict, lookupEnv_append, show i + 1 = 1 + i by omega, lookup_argPairs args 1 i h]
  rfl

theorem lookup_args_dict_args (args : List String) :
    lookupEnv (args_dict args) "args" = some (pyJoin "\n" args) := by
  rw [args_dict, lookupEnv_append, lookup_argPairs_args]
  rfl

/-- Substituting a template made of a `${name}` placeholder between two
placeholder-free chunks replaces exactly that occurrence by the bound
value. -/
theorem pySubstitute_single (env : List (String × String)) (lit1 n lit2 v : String)
    (hlit1 : ∀ c ∈ lit1.data, c ≠ '$') (hlit2 : ∀ c ∈ lit2.data, c ≠ '$')
    (hname : ∀ c ∈ n.data, isIdentChar c = true) (hne : n.data ≠ [])
    (hstart : ∀ c, n.data.head? = some c → isIdentStart c = true)
    (hlook : lookupEnv env n = some v) :
    pySubstitute env (lit1 ++ "$\x7b" ++ n ++ "\x7d" ++ lit2) = .ok (lit1 ++ v ++ lit2) := by
  rcases hd : n.data with _ | ⟨n0, ns⟩
  · exact absurd hd hne
  have hmk : (⟨n0 :: ns⟩ : String) = n := by rw [← hd]
  unfold pySubstitute
  have hdata : (lit1 ++ "$\x7b" ++ n ++ "\x7d" ++ lit2).data =
      lit1.data ++ ('$' :: '{' :: ((n0 :: ns) ++ '}' :: lit2.data)) := by
    simp [String.data_append, hd]
  have hplain2 : substL env lit2.data = .ok lit2.data := by
    have h0 := substL_append_plain env lit2.data [] hlit2
    simpa [substL] using h0
  rw [hdata, substL_append_plain env lit1.data _ hlit1,
    substL_braced_found env n0 ns lit2.data v (fun c hc => hname c (by rw [hd]; exact hc))
      (hstart n0 (by rw [hd]; rfl)) (by rw [hmk]; exact hlook), hplain2]
  have hstr : lit1 ++ v ++ lit2 = (⟨lit1.data ++ (v.data ++ lit2.data)⟩ : String) :=
    String.ext (by simp [String.data_append])
  simp [hstr]

/-- C2 counterexample: with argument tokens `hi` and `there`, the
placeholder `args` is bound to the newline-joined string `hi\nthere`, not
the space-joined `hi there` the claim requires — the expanded command line
(and the stdout a faithful runner echoes back) carries the newline. -/
theorem C2_args_newline_counterexample :
    (exec (fun c => (0, c, "")) 0 1 "${args}" ["hi", "there"] [] ⟨.na, 0, .na⟩).1 =
      .ok ⟨"hi\nthere", 0, "hi\nthere", ""⟩ ∧
    ("hi\nthere" : String) ≠ "hi there" := by
  have heq : ("" ++ "$\x7b" ++ "args" ++ "\x7d" ++ "" : String) = "${args}" := by decide
  have hsub : pySubstitute ([] ++ args_dict (filter_args ["hi", "there"])) "${args}" =
      .ok ("" ++ "hi\nthere" ++ "") := by
    rw [← heq]
    exact pySubstitute_single _ "" "args" "" "hi\nthere" (by decide) (by decide) (by decide)
      (by decide) (by decide) (by decide)
  constructor
  · have h2 : ("" ++ "hi\nthere" ++ "" : String) = "hi\nthere" := by decide
    rw [h2] at hsub
    simp only [List.nil_append] at hsub
    simp [exec, hsub, kwargsDisjoint]
  · decide

/-- C2 (amended): after whitespace filtering, the expander binds `arg_i` to
the i-th token (1-based) and binds `args` to the NEWLINE-joined token
sequence (`'\n'.join`); a `${name}` placeholder bound in the merged
environment is substituted with its value; and when the argument names
collide with a global variable name, building the keyword arguments of
`substitute` raises an uncaught `TypeError` (argument bindings do not
silently win). -/
theorem C2_expander_bindings (args0 : List String) (i : Nat)
    (h : i < (filter_args args0).length) (vars : List (String × String))
    (runner : String → Int × String × String) (tStart tEnd : Int)
    (lit1 n lit2 v : String)
    (hlit1 : ∀ c ∈ lit1.data, c ≠ '$') (hlit2 : ∀ c ∈ lit2.data, c ≠ '$')
    (hname : ∀ c ∈ n.data, isIdentChar c = true) (hne : n.data ≠ [])
    (hstart : ∀ c, n.data.head? = some c → isIdentStart c = true)
    (hlook : lookupEnv (vars ++ args_dict (filter_args args0)) n = some v) :
    lookupEnv (args_dict (filter_args args0)) ("arg_" ++ toString (i + 1)) =
      some ((filter_args args0).get ⟨i, h⟩) ∧
    lookupEnv (args_dict (filter_args args0)) "args" =
      some (pyJoin "\n" (filter_args args0)) ∧
    pySubstitute (vars ++ args_dict (filter_args args0)) (lit1 ++ "$\x7b" ++ n ++ "\x7d" ++ lit2) =
      .ok (lit1 ++ v ++ lit2) ∧
    (∀ (vars2 : List (String × String)) (st2 : ExecState),
      kwargsDisjoint vars2 (args_dict (filter_args args0)) = false →
      exec runner tStart tEnd (lit1 ++ "$\x7b" ++ n ++ "\x7d" ++ lit2) args0 vars2 st2 =
        (.error .typeError, { st2 with last_exec_start := .t tStart })) := by
  refine ⟨lookup_args_dict_argi _ i h, lookup_args_dict_args _, ?_, ?_⟩
  · exact pySubstitute_single _ lit1 n lit2 v hlit1 hlit2 hname hne hstart hlook
  · intro vars2 st2 hcol
    simp [exec, hcol]

/-- Witness for C2 at a concrete input: tokens `hi`/`there`, template
`echo ${arg_2}` around the placeholder `arg_2`, global variable `x`
colliding in the last conjunct. -/
theorem C2_expander_bindings_witness :
    lookupEnv (args_dict (filter_args ["hi", "there"])) ("arg_" ++ toString (1 + 1)) =
      some ((filter_args ["hi", "there"]).get ⟨1, by decide⟩) ∧
    lookupEnv (args_dict (filter_args ["hi", "there"])) "args" =
      some (pyJoin "\n" (filter_args ["hi", "there"])) ∧
    pySubstitute ([("x", "1")] ++ args_dict (filter_args ["hi", "there"]))
        ("echo " ++ "$\x7b" ++ "arg_2" ++ "\x7d" ++ "!") = .ok ("echo " ++ "there" ++ "!") ∧
    (∀ (vars2 : List (String × String)) (st2 : ExecState),
      kwargsDisjoint vars2 (args_dict (filter_args ["hi", "there"])) = false →
      exec (fun c => (0, c, "")) 3 4 ("echo " ++ "$\x7b" ++ "arg_2" ++ "\x7d" ++ "!")
          ["hi", "there"] vars2 st2 =
        (.error .typeError, { st2 with last_exec_start := .t 3 })) :=
  C2_expander_bindings ["hi", "there"] 1 (by decide) [("x", "1")] (fun c => (0, c, "")) 3 4
    "echo " "arg_2" "!" "there" (by decide) (by decide) (by decide) (by decide) (by decide)
    (by simp [lookupEnv, filter_args, args_dict, argPairs, pyStrip, pyJoin]; decide)

theorem char_toNat_ofNat {n : Nat} (h : n < 55296) : (Char.ofNat n).toNat = n := by
  have hv : Char.isValidCharNat n := Or.inl h
  rw [Char.ofNat, dif_pos hv]
  simp [Char.ofNatAux, Char.toNat, UInt32.ofNat', UInt32.toNat]

theorem toLower_of_isUpper {c : Char} (h : c.isUpper = true) :
    Char.toLower c = Char.ofNat (c.toNat + 32) := by
  simp only [Char.isUpper, ge_iff_le, Bool.and_eq_true, decide_eq_true_eq] at h
  rw [Char.toLower, if_pos]
  exact ⟨by simpa using h.1, by simpa using h.2⟩

theorem isUpper_iff (x : Char) : x.isUpper = true ↔ 65 ≤ x.toNat ∧ x.toNat ≤ 90 := by
  simp [Char.isUpper, UInt32.le_def, BitVec.le_def, Char.toNat, UInt32.toNat]

theorem toLower_not_isUpper (c : Char) : (Char.toLower c).isUpper = false := by
  by_cases h : c.isUpper = true
  · have hb := (isUpper_iff c).1 h
    rw [toLower_of_isUpper h, Bool.eq_false_iff, ne_eq, isUpper_iff,
      char_toNat_ofNat (show c.toNat + 32 < 55296 by omega)]
    omega
  · have hb : ¬ (65 ≤ c.toNat ∧ c.toNat ≤ 90) := fun hc => h ((isUpper_iff c).2 hc)
    rw [Char.toLower, if_neg]
    · rw [Bool.eq_false_iff, ne_eq, isUpper_iff]
      omega
    · exact fun hc => hb ⟨by simpa using hc.1, by simpa using hc.2⟩

theorem startsL_nil_pat (s : List Char) : startsL s [] = true := by
  cases s <;> rfl

theorem startsL_append_self (l t : List Char) : startsL (l ++ t) l = true := by
  induction l with
  | nil => exact startsL_nil_pat t
  | cons c cs ih => simp [startsL, ih]

theorem mem_of_startsL {s p : List Char} (h : startsL s p = true) : ∀ c ∈ p, c ∈ s := by
  induction p generalizing s with
  | nil => simp
  | cons q qs ih =>
    cases s with
    | nil => simp [startsL] at h
    | cons a as =>
      simp only [startsL, Bool.and_eq_true, decide_eq_true_eq] at h
      intro c hc
      rcases List.mem_cons.1 hc with h1 | h1
      · rw [h1, ← h.1]
        exact List.mem_cons_self a as
      · exact List.mem_cons_of_mem a (ih h.2 c h1)

theorem startsL_lower_false (s p : List Char) (hup : ∃ c ∈ p, c.isUpper = true) :
    startsL (s.map Char.toLower) p = false := by
  by_contra h
  obtain ⟨c, hc, hcu⟩ := hup
  have hmem := mem_of_startsL (Bool.of_not_eq_false h) c hc
  obtain ⟨d, -, hd⟩ := List.mem_map.1 hmem
  rw [← hd] at hcu
  rw [toLower_not_isUpper d] at hcu
  exact Bool.false_ne_true hcu

theorem dropWhile_eq_self_of_head (p : Char → Bool) (v : List Char)
    (hv : ∀ c, v.head? = some c → p c = false) : v.dropWhile p = v := by
  cases v with
  | nil => rfl
  | cons c t =>
    rw [List.dropWhile_cons, if_neg]
    simp [hv c rfl]

theorem dropWhile_append_of_tail (p : Char → Bool) (u v : List Char)
    (hv : v.dropWhile p = v) : (u ++ v).dropWhile p = u.dropWhile p ++ v := by
  induction u with
  | nil => simpa using hv
  | cons c u' ih =>
    by_cases hc : p c = true
    · simp [List.dropWhile_cons, hc, ih]
    · simp [List.dropWhile_cons, hc]

theorem dropWhile_append_of_ne_nil (p : Char → Bool) (u v : List Char)
    (hu : u.dropWhile p ≠ []) : (u ++ v).dropWhile p = u.dropWhile p ++ v := by
  induction u with
  | nil => exact absurd rfl hu
  | cons c u' ih =>
    by_cases hc : p c = true
    · rw [List.cons_append, List.dropWhile_cons, if_pos hc, ih, List.dropWhile_cons, if_pos hc]
      rw [List.dropWhile_cons, if_pos hc] at hu
      exact hu
    · simp [List.dropWhile_cons, hc]

theorem dropWhile_ne_nil_of_exists (p : Char → Bool) (u : List Char)
    (h : ∃ c ∈ u, p c = false) : u.dropWhile p ≠ [] := by
  induction u with
  | nil => simp at h
  | cons c u' ih =>
    obtain ⟨d, hd, hdp⟩ := h
    by_cases hc : p c = true
    · rw [List.dropWhile_cons, if_pos hc]
      rcases List.mem_cons.1 hd with h1 | h1
      · rw [h1] at hdp
        rw [hdp] at hc
        exact absurd hc (by simp)
      · exact ih ⟨d, h1, hdp⟩
    · simp [List.dropWhile_cons, hc]

/-- Stripping a string that begins with a whitespace-free, nonempty chunk
`a` keeps `a` intact and right-trims the remainder. -/
theorem pyStrip_append (a x : String)
    (hh : ∀ c, a.data.head? = some c → c.isWhitespace = false)
    (hl : ∀ c, a.data.reverse.head? = some c → c.isWhitespace = false)
    (hne : a.data ≠ []) :
    (pyStrip (a ++ x)).data = a.data ++ (x.data.reverse.dropWhile Char.isWhitespace).reverse := by
  unfold pyStrip
  rw [String.data_append]
  rw [dropWhile_eq_self_of_head Char.isWhitespace (a.data ++ x.data)
    (by
      intro c hc
      rcases hd : a.data with _ | ⟨c0, t⟩
      · exact absurd hd hne
      · rw [hd] at hc
        simp only [List.cons_append, List.head?_cons, Option.some.injEq] at hc
        rw [← hc]
        exact hh c0 (by rw [hd]; rfl))]
  rw [List.reverse_append]
  rw [dropWhile_append_of_tail Char.isWhitespace x.data.reverse a.data.reverse
    (dropWhile_eq_self_of_head Char.isWhitespace a.data.reverse hl)]
  rw [List.reverse_append, List.reverse_reverse]

/-- C10 counterexample: with the registry `[("Echo", s1), ("e", s2)]` the
typed line `Echo hi` passes validation, but the matcher does not return
`(None, None)` — it silently dispatches the unrelated alias `e`. -/
theorem C10_counterexample :
    validate (available_commands [("Echo", ⟨"a", "std", false⟩), ("e", ⟨"b", "std", false⟩)])
      "Echo hi" = true ∧
    get_command (pyLower (pyStrip "Echo hi"))
        [("Echo", ⟨"a", "std", false⟩), ("e", ⟨"b", "std", false⟩)] =
      some ("e", ⟨"b", "std", false⟩) := by
  constructor <;> decide

/-- C10 (amended): for every configured alias containing an uppercase
character (stored without surrounding whitespace) and every input typed
for it as alias-space-arguments with a real argument, the validator
accepts the input (it compares against the trimmed, lowercased keys), yet
`get_command` — comparing the lowercased input against the raw keys —
finds no match, provided no other configured alias is a prefix of the
lowercased input; the loop then ignores the line silently: no execution,
no message. -/
theorem C10_uppercase_alias_ignored (commands : List (String × CmdSpec))
    (a rest : String)
    (hmem : a ∈ commands.map Prod.fst)
    (hup : ∃ c ∈ a.data, c.isUpper = true)
    (hh : ∀ c, a.data.head? = some c → c.isWhitespace = false)
    (hl : ∀ c, a.data.reverse.head? = some c → c.isWhitespace = false)
    (hrest : ∃ c ∈ rest.data, c.isWhitespace = false)
    (hothers : ∀ p ∈ commands, p.1 ≠ a →
      pyStartsWith (pyLower (pyStrip (a ++ (" " ++ rest)))) p.1 = false) :
    validate (available_commands commands) (a ++ (" " ++ rest)) = true ∧
    get_command (pyLower (pyStrip (a ++ (" " ++ rest)))) commands = none ∧
    loopIteration commands (.line (a ++ (" " ++ rest))) = .ignored := by
  have hne : a.data ≠ [] := by
    obtain ⟨c, hc, -⟩ := hup
    intro h0
    rw [h0] at hc
    simp at hc
  have hstrip : (pyStrip (a ++ (" " ++ rest))).data =
      a.data ++ ((" " ++ rest).data.reverse.dropWhile Char.isWhitespace).reverse :=
    pyStrip_append a (" " ++ rest) hh hl hne
  have hstripa : pyStrip a = a := by
    apply String.ext
    have h0 := pyStrip_append a "" hh hl hne
    have : a ++ "" = a := String.ext (by simp [String.data_append])
    rw [this] at h0
    simpa using h0
  have htext : (pyLower (pyStrip (a ++ (" " ++ rest)))).data =
      a.data.map Char.toLower ++
        (((" " ++ rest).data.reverse.dropWhile Char.isWhitespace).reverse).map Char.toLower := by
    show (pyStrip (a ++ (" " ++ rest))).data.map Char.toLower = _
    rw [hstrip, List.map_append]
  have hspace : ' ' ∈ ((" " ++ rest).data.reverse.dropWhile Char.isWhitespace).reverse := by
    have hrev : (" " ++ rest).data.reverse = rest.data.reverse ++ [' '] := by
      rw [String.data_append]
      have : (" " : String).data = [' '] := rfl
      rw [this]
      simp
    rw [hrev, dropWhile_append_of_ne_nil Char.isWhitespace rest.data.reverse [' ']
      (dropWhile_ne_nil_of_exists _ _ (by
        obtain ⟨c, hc, hcw⟩ := hrest
        exact ⟨c, by simpa using hc, hcw⟩))]
    simp
  have hnomatch : ∀ p ∈ commands, pyStartsWith (pyLower (pyStrip (a ++ (" " ++ rest)))) p.1 = false := by
    intro p hp
    by_cases hpa : p.1 = a
    · rw [hpa]
      unfold pyStartsWith
      rw [show (pyLower (pyStrip (a ++ (" " ++ rest)))).data =
        ((pyStrip (a ++ (" " ++ rest))).data).map Char.toLower from rfl]
      exact startsL_lower_false _ _ hup
    · exact hothers p hp hpa
  have hgc : get_command (pyLower (pyStrip (a ++ (" " ++ rest)))) commands = none := by
    unfold get_command
    rw [List.find?_eq_none]
    intro p hp
    simp [hnomatch p hp]
  refine ⟨?_, hgc, ?_⟩
  · unfold validate
    rw [List.any_eq_true]
    refine ⟨pyLower (pyStrip a), ?_, ?_⟩
    · unfold available_commands
      apply List.mem_append_left
      unfold get_keys
      exact List.mem_map.2 ⟨a, hmem, rfl⟩
    · rw [hstripa]
      unfold pyStartsWith
      rw [htext]
      show startsL (a.data.map Char.toLower ++ _) ((pyLower a).data) = true
      exact startsL_append_self _ _
  · simp only [loopIteration]
    rw [hgc]
    rw [if_neg]
    intro hq
    have hq2 := congrArg String.data hq
    rw [htext] at hq2
    have hsp : ' ' ∈ ("q" : String).data := by
      rw [← hq2]
      exact List.mem_append_right _ (List.mem_map.2 ⟨' ', hspace, rfl⟩)
    simp at hsp

/-- Witness for C10 at a concrete registry: the single alias `Echo` with
input `Echo hi`. -/
theorem C10_uppercase_alias_ignored_witness :
    validate (available_commands [("Echo", ⟨"a", "std", false⟩)]) ("Echo" ++ (" " ++ "hi")) = true ∧
    get_command (pyLower (pyStrip ("Echo" ++ (" " ++ "hi")))) [("Echo", ⟨"a", "std", false⟩)] =
      none ∧
    loopIteration [("Echo", ⟨"a", "std", false⟩)] (.line ("Echo" ++ (" " ++ "hi"))) = .ignored :=
  C10_uppercase_alias_ignored [("Echo", ⟨"a", "std", false⟩)] "Echo" "hi"
    (by decide) (by decide) (by decide) (by decide) (by decide)
    (by
      intro p hp hne
      simp only [List.mem_singleton] at hp
      rw [hp] at hne
      exact absurd rfl hne)

theorem replaceL_cons_ne (o : Char) (os new : List Char) (c : Char) (t : List Char)
    (hc : c ≠ o) : replaceL o os new (c :: t) = c :: replaceL o os new t := by
  conv_lhs => rw [replaceL.eq_def]
  show (if startsL (c :: t) (o :: os) = true then
      new ++ replaceL o os new (List.drop os.length t)
    else c :: replaceL o os new t) = c :: replaceL o os new t
  rw [if_neg]
  simp [startsL, hc]

theorem replaceL_front (o : Char) (os new t : List Char) :
    replaceL o os new ((o :: os) ++ t) = new ++ replaceL o os new t := by
  conv_lhs => rw [show (o :: os) ++ t = o :: (os ++ t) from rfl, replaceL.eq_def]
  show (if startsL (o :: (os ++ t)) (o :: os) = true then
      new ++ replaceL o os new (List.drop os.length (os ++ t))
    else o :: replaceL o os new (os ++ t)) = new ++ replaceL o os new t
  have h1 : startsL (o :: (os ++ t)) (o :: os) = true := by
    rw [← List.cons_append]
    exact startsL_append_self (o :: os) t
  rw [if_pos h1, List.drop_left os t]

/-- Replacing a nonempty alias `a` (not starting with a space) inside
`a ++ " " ++ rest` removes the front occurrence and recurses into the
remainder, keeping the separating space. -/
theorem pyReplace_alias (a rest : String) (o : Char) (os : List Char)
    (hd : a.data = o :: os) (ho : o ≠ ' ') :
    pyReplace (a ++ (" " ++ rest)) a "" = " " ++ pyReplace rest a "" := by
  have e1 : pyReplace (a ++ (" " ++ rest)) a "" =
      ⟨replaceL o os [] ((a ++ (" " ++ rest)).data)⟩ := by
    unfold pyReplace
    rw [hd]
  have e2 : pyReplace rest a "" = ⟨replaceL o os [] rest.data⟩ := by
    unfold pyReplace
    rw [hd]
  rw [e1, e2]
  apply String.ext
  have hdata : (a ++ (" " ++ rest)).data = (o :: os) ++ (' ' :: rest.data) := by
    rw [String.data_append, String.data_append, hd]
    simp [show (" " : String).data = [' '] from rfl]
  rw [hdata, replaceL_front, replaceL_cons_ne o os [] ' ' rest.data (fun h => ho h.symm)]
  rw [String.data_append]
  rfl

theorem pySplit_space_cons (x : String) : pySplit ' ' (" " ++ x) = "" :: pySplit ' ' x := by
  unfold pySplit
  rw [show (" " ++ x).data = ' ' :: x.data from by rw [String.data_append]; rfl]
  rw [splitL, if_pos rfl]
  rfl

/-- C1 counterexample: with the single alias `echo` and input
`echo say echo`, the matched alias is `echo` but the raw argument text is
`" say "` — `replace` removed the alias from inside the argument text too,
and kept the separating space — not the `"say echo"` the claim requires. -/
theorem C1_counterexample :
    get_command "echo say echo" [("echo", ⟨"${args}", "std", false⟩)] =
      some ("echo", ⟨"${args}", "std", false⟩) ∧
    pyReplace "echo say echo" "echo" "" = " say " ∧
    (" say " : String) ≠ "say echo" := by
  refine ⟨by decide, ?_, by decide⟩
  simp [pyReplace, replaceL, startsL]

/-- C1 (amended): for a registry `pre ++ (a, sp) :: post` where no alias of
`pre` prefix-matches the input `a ++ " " ++ rest`, the matcher returns
`(a, sp)` — the first alias in iteration order that is a prefix — but the
extracted raw argument text is the input with EVERY occurrence of `a`
removed: the separating space survives (as a leading empty token after
splitting) and occurrences of the alias inside `rest` are removed as
well, not only the one at the front. -/
theorem C1_matcher_extraction (pre post : List (String × CmdSpec)) (a : String) (sp : CmdSpec)
    (rest : String) (o : Char) (os : List Char) (hd : a.data = o :: os) (ho : o ≠ ' ')
    (hpre : ∀ p ∈ pre, pyStartsWith (a ++ (" " ++ rest)) p.1 = false) :
    get_command (a ++ (" " ++ rest)) (pre ++ (a, sp) :: post) = some (a, sp) ∧
    pyReplace (a ++ (" " ++ rest)) a "" = " " ++ pyReplace rest a "" ∧
    extract_args (a ++ (" " ++ rest)) a = "" :: pySplit ' ' (pyReplace rest a "") := by
  have hrepl := pyReplace_alias a rest o os hd ho
  refine ⟨?_, hrepl, ?_⟩
  · unfold get_command
    rw [List.find?_append]
    have hpren : List.find? (fun p => pyStartsWith (a ++ (" " ++ rest)) p.1)
        pre = none := by
      rw [List.find?_eq_none]
      intro p hp
      simp [hpre p hp]
    rw [hpren, List.find?_cons_of_pos]
    · rfl
    · show pyStartsWith (a ++ (" " ++ rest)) a = true
      unfold pyStartsWith
      rw [String.data_append]
      exact startsL_append_self a.data (" " ++ rest).data
  · unfold extract_args
    rw [hrepl, pySplit_space_cons]

/-- Witness for C1 at a concrete registry: aliases `deploy` (not matching)
then `echo`, input `echo say echo`. -/
theorem C1_matcher_extraction_witness :
    get_command ("echo" ++ (" " ++ "say echo"))
        ([("deploy", ⟨"d", "std", false⟩)] ++ ("echo", ⟨"${args}", "std", false⟩) ::
          [("e2", ⟨"z", "std", false⟩)]) =
      some ("echo", ⟨"${args}", "std", false⟩) ∧
    pyReplace ("echo" ++ (" " ++ "say echo")) "echo" "" = " " ++ pyReplace "say echo" "echo" "" ∧
    extract_args ("echo" ++ (" " ++ "say echo")) "echo" =
      "" :: pySplit ' ' (pyReplace "say echo" "echo" "") :=
  C1_matcher_extraction [("deploy", ⟨"d", "std", false⟩)] [("e2", ⟨"z", "std", false⟩)]
    "echo" ⟨"${args}", "std", false⟩ "say echo" 'e' ['c', 'h', 'o'] (by decide) (by decide)
    (by intro p hp; simp only [List.mem_singleton] at hp; rw [hp]; decide)

theorem splitL_ne_nil (sep : Char) (l : List Char) : splitL sep l ≠ [] := by
  induction l with
  | nil => simp [splitL]
  | cons c t ih =>
    rw [splitL]
    split
    · simp
    · split
      · simp
      · simp

theorem mem_splitL_not_mem (sep : Char) (l : List Char) :
    ∀ p ∈ splitL sep l, sep ∉ p := by
  induction l with
  | nil =>
    intro p hp
    simp [splitL] at hp
    simp [hp]
  | cons c t ih =>
    intro p hp
    rw [splitL] at hp
    by_cases hc : c = sep
    · rw [if_pos hc] at hp
      rcases List.mem_cons.1 hp with h1 | h1
      · simp [h1]
      · exact ih p h1
    · rw [if_neg hc] at hp
      rcases heq : splitL sep t with _ | ⟨h, t'⟩
      · exact absurd heq (splitL_ne_nil sep t)
      · rw [heq] at hp
        rcases List.mem_cons.1 hp with h1 | h1
        · rw [h1]
          intro hm
          rcases List.mem_cons.1 hm with h2 | h2
          · exact hc h2.symm
          · exact ih h (by rw [heq]; exact List.mem_cons_self h t') h2
        · exact ih p (by rw [heq]; exact List.mem_cons_of_mem h h1)

theorem joinL_splitL (sep : Char) (l : List Char) : joinL sep (splitL sep l) = l := by
  induction l with
  | nil => rfl
  | cons c t ih =>
    rw [splitL]
    by_cases hc : c = sep
    · rw [if_pos hc]
      rcases heq : splitL sep t with _ | ⟨p0, ps⟩
      · exact absurd heq (splitL_ne_nil sep t)
      · rw [heq] at ih
        show [] ++ sep :: joinL sep (p0 :: ps) = c :: t
        rw [ih, hc]
        rfl
    · rw [if_neg hc]
      rcases heq : splitL sep t with _ | ⟨h, t'⟩
      · exact absurd heq (splitL_ne_nil sep t)
      · rw [heq] at ih
        cases t' with
        | nil =>
          show c :: h = c :: t
          rw [show joinL sep [h] = h from rfl] at ih
          rw [ih]
        | cons u us =>
          show (c :: h) ++ sep :: joinL sep (u :: us) = c :: t
          rw [show joinL sep (h :: u :: us) = h ++ sep :: joinL sep (u :: us) from rfl] at ih
          rw [List.cons_append, ih]

theorem splitL_single (sep : Char) (x : List Char) (hx : sep ∉ x) : splitL sep x = [x] := by
  induction x with
  | nil => rfl
  | cons c t ih =>
    rw [splitL, if_neg (fun h => hx (by rw [h]; exact List.mem_cons_self _ _)),
      ih (fun h => hx (List.mem_cons_of_mem c h))]

theorem splitL_append_sep (sep : Char) (x r : List Char) (hx : sep ∉ x) :
    splitL sep (x ++ sep :: r) = x :: splitL sep r := by
  induction x with
  | nil => simp [splitL]
  | cons c t ih =>
    rw [List.cons_append, splitL,
      if_neg (fun h => hx (by rw [h]; exact List.mem_cons_self _ _)),
      ih (fun h => hx (List.mem_cons_of_mem c h))]

theorem splitL_joinL (sep : Char) (ps : List (List Char)) (hne : ps ≠ [])
    (hps : ∀ p ∈ ps, sep ∉ p) : splitL sep (joinL sep ps) = ps := by
  induction ps with
  | nil => exact absurd rfl hne
  | cons x xs ih =>
    cases xs with
    | nil =>
      rw [joinL]
      exact splitL_single sep x (hps x (List.mem_cons_self _ _))
    | cons y ys =>
      rw [show joinL sep (x :: y :: ys) = x ++ sep :: joinL sep (y :: ys) from rfl,
        splitL_append_sep sep x _ (hps x (List.mem_cons_self _ _)),
        ih (by simp) (fun p hp => hps p (List.mem_cons_of_mem x hp))]

theorem pyJoin_nl_data (ps : List (List Char)) :
    (pyJoin "\n" (ps.map (fun p => (⟨p⟩ : String)))).data = joinL '\n' ps := by
  induction ps with
  | nil => rfl
  | cons x xs ih =>
    cases xs with
    | nil => rfl
    | cons y ys =>
      simp only [List.map_cons] at ih ⊢
      show ((⟨x⟩ : String) ++ "\n" ++
          pyJoin "\n" ((⟨y⟩ : String) :: List.map (fun p => (⟨p⟩ : String)) ys)).data =
        x ++ '\n' :: joinL '\n' (y :: ys)
      rw [String.data_append, String.data_append, ih]
      simp

theorem pyJoin_nl_data' (P : List String) :
    (pyJoin "\n" P).data = joinL '\n' (P.map String.data) := by
  have h1 : (P.map String.data).map (fun p => (⟨p⟩ : String)) = P := by
    rw [List.map_map]
    exact List.map_id P
  conv_lhs => rw [← h1]
  exact pyJoin_nl_data _

theorem pyJoin_pySplit (s : String) : pyJoin "\n" (pySplit '\n' s) = s := by
  apply String.ext
  unfold pySplit
  rw [pyJoin_nl_data']
  rw [List.map_map]
  have h2 : (splitL '\n' s.data).map (String.data ∘ fun l => (⟨l⟩ : String)) =
      splitL '\n' s.data := List.map_id _
  rw [h2, joinL_splitL]

theorem toString_nat_length_le {n : Nat} (h : n < 100000) : (toString n).data.length ≤ 5 := by
  have h1 := Nat.repr_length n 5 (by norm_num) (by norm_num; omega)
  exact h1

theorem padTo5_length {n : Nat} (h : n < 100000) : (padTo5 n).data.length = 5 := by
  unfold padTo5
  rw [String.data_append]
  rw [List.length_append]
  have h2 : ((⟨List.replicate (5 - (toString n).data.length) ' '⟩ : String)).data.length =
      5 - (toString n).data.length := by
    show (List.replicate (5 - (toString n).data.length) ' ').length = _
    exact List.length_replicate _ _
  rw [h2]
  have := toString_nat_length_le h
  omega

theorem padTo5_no_nl (n : Nat) : '\n' ∉ (padTo5 n).data := by
  unfold padTo5
  rw [String.data_append]
  intro hm
  rcases List.mem_append.1 hm with h1 | h1
  · have h2 := List.eq_of_mem_replicate h1
    exact absurd h2 (by decide)
  · rw [toString_nat_eq] at h1
    have h3 := natDigits_all_digits n '\n' h1
    exact absurd h3 (by decide)

theorem piece_drop7 (i : Nat) (hi : i < 100000) (p : String) :
    (padTo5 i ++ ".\t" ++ p).data.drop 7 = p.data := by
  rw [String.data_append, String.data_append]
  have hlen : ((padTo5 i).data ++ (".\t" : String).data).length = 7 := by
    rw [List.length_append, padTo5_length hi]
    rfl
  rw [← hlen, List.drop_left]

theorem enum_pieces_no_nl : ∀ (qs : List String) (start : Nat),
    (∀ q ∈ qs, '\n' ∉ q.data) →
    ∀ p ∈ (List.enumFrom start qs).map (fun q => padTo5 q.1 ++ ".\t" ++ q.2), '\n' ∉ p.data := by
  intro qs
  induction qs with
  | nil =>
    intro start h p hp
    simp [List.enumFrom] at hp
  | cons q qs ih =>
    intro start h p hp
    simp only [List.enumFrom, List.map_cons] at hp
    rcases List.mem_cons.1 hp with h1 | h1
    · rw [h1, String.data_append, String.data_append]
      intro hm
      rcases List.mem_append.1 hm with h2 | h2
      · rcases List.mem_append.1 h2 with h3 | h3
        · exact padTo5_no_nl start h3
        · exact absurd h3 (by decide)
      · exact h q (List.mem_cons_self _ _) h2
    · exact ih (start + 1) (fun q' hq' => h q' (List.mem_cons_of_mem q hq')) p h1

theorem enum_pieces_drop7 : ∀ (qs : List String) (start : Nat), start + qs.length ≤ 100000 →
    ((List.enumFrom start qs).map (fun q => padTo5 q.1 ++ ".\t" ++ q.2)).map
      (fun l => (⟨l.data.drop 7⟩ : String)) = qs := by
  intro qs
  induction qs with
  | nil => intro start h; rfl
  | cons q qs ih =>
    intro start h
    simp only [List.enumFrom, List.map_cons]
    rw [piece_drop7 start (by simp at h; omega) q]
    rw [ih (start + 1) (by simp at h ⊢; omega)]

theorem pySplit_no_sep (sep : Char) (s : String) : ∀ q ∈ pySplit sep s, sep ∉ q.data := by
  intro q hq
  unfold pySplit at hq
  obtain ⟨piece, hpc, he⟩ := List.mem_map.1 hq
  rw [← he]
  exact mem_splitL_not_mem sep s.data piece hpc

theorem numberLines_split (s : String) :
    pySplit '\n' (numberLines s) =
      (pySplit '\n' s).enum.map (fun p => padTo5 p.1 ++ ".\t" ++ p.2) := by
  show pySplit '\n'
      (pyJoin "\n" ((pySplit '\n' s).enum.map fun p => padTo5 p.1 ++ ".\t" ++ p.2)) = _
  unfold pySplit
  rw [pyJoin_nl_data']
  rw [splitL_joinL '\n' _
    (by
      intro h0
      rw [List.map_eq_nil, List.map_eq_nil] at h0
      have h1 : List.map (fun l => (⟨l⟩ : String)) (splitL '\n' s.data) = [] := by
        have h2 := congrArg List.length h0
        rw [List.enum_length] at h2
        exact List.length_eq_zero.1 h2
      exact splitL_ne_nil '\n' s.data (List.map_eq_nil.1 h1))
    (by
      intro p hp
      obtain ⟨q, hq, he⟩ := List.mem_map.1 hp
      rw [← he]
      exact enum_pieces_no_nl (pySplit '\n' s) 0 (pySplit_no_sep '\n' s) q hq)]
  rw [List.map_map]
  exact List.map_id _

theorem format_numbered_last (hR jH : String → String) (res : CompletedProcess)
    (type s : String) (hs : format hR jH res type false = .str s) :
    format hR jH res type true = .str (numberLines s) := by
  unfold format at hs ⊢
  cases h3 : formatDispatch hR jH res type with
  | none =>
    rw [h3] at hs
    exact absurd hs (by simp)
  | some v =>
    rw [h3] at hs
    cases v with
    | str s0 =>
      simp at hs
      simp [hs]
    | proc p =>
      simp at hs

/-- C6 counterexample: the line numbers the formatter attaches are 0-based
(`enumerate` starts at 0), not 1-based: the first line of a numbered
diagnostic is prefixed `    0.`, and the output differs from the claimed
1-based numbering. -/
theorem C6_zero_based_counterexample :
    format (fun x => x) (fun x => x) ⟨"c", 0, "x", "e"⟩ "json" true =
      .str "    0.\t\n    1.\tError: Expecting value\n    2.\tInput: c\n    3.\tOutput: x\n    4.\tMessage: e\n    5.\t" ∧
    format (fun x => x) (fun x => x) ⟨"c", 0, "x", "e"⟩ "json" true ≠
      .str "    1.\t\n    2.\tError: Expecting value\n    3.\tInput: c\n    4.\tOutput: x\n    5.\tMessage: e\n    6.\t" := by
  constructor <;> decide

/-- C6 (amended): with `numbered = true` the formatter splits the rendered
output on newlines, prefixes every line with a fixed-width right-aligned
0-BASED line number (Python `enumerate` starts at 0), a period and a tab,
and rejoins with newlines; this runs last, after type-specific rendering;
and (for outputs of at most 100000 lines, where the 5-wide field never
overflows) stripping the fixed 7-character `"%5d.\t"` prefix from every
line of the numbered output recovers exactly the `numbered = false`
output. -/
theorem C6_numbering (hR jH : String → String) (res : CompletedProcess) (type : String)
    (s : String) (hs : format hR jH res type false = .str s)
    (hcount : (pySplit '\n' s).length ≤ 100000) :
    format hR jH res type true = .str (numberLines s) ∧
    (pySplit '\n' (numberLines s)).map (fun l => (⟨l.data.drop 7⟩ : String)) =
      pySplit '\n' s ∧
    pyJoin "\n" ((pySplit '\n' (numberLines s)).map (fun l => (⟨l.data.drop 7⟩ : String))) =
      s := by
  have hrecov : (pySplit '\n' (numberLines s)).map (fun l => (⟨l.data.drop 7⟩ : String)) =
      pySplit '\n' s := by
    rw [numberLines_split]
    exact enum_pieces_drop7 (pySplit '\n' s) 0 (by simpa using hcount)
  refine ⟨format_numbered_last hR jH res type s hs, hrecov, ?_⟩
  rw [hrecov, pyJoin_pySplit]

/-- Witness for C6 at a concrete result: invalid-JSON stdout `x`, whose
diagnostic block is numbered. -/
theorem C6_numbering_witness :
    format (fun x => x) (fun x => x) ⟨"c", 0, "x", "e"⟩ "json" true =
      .str (numberLines "\nError: Expecting value\nInput: c\nOutput: x\nMessage: e\n") ∧
    (pySplit '\n'
        (numberLines "\nError: Expecting value\nInput: c\nOutput: x\nMessage: e\n")).map
      (fun l => (⟨l.data.drop 7⟩ : String)) =
      pySplit '\n' "\nError: Expecting value\nInput: c\nOutput: x\nMessage: e\n" ∧
    pyJoin "\n"
        ((pySplit '\n'
            (numberLines "\nError: Expecting value\nInput: c\nOutput: x\nMessage: e\n")).map
          (fun l => (⟨l.data.drop 7⟩ : String))) =
      "\nError: Expecting value\nInput: c\nOutput: x\nMessage: e\n" :=
  C6_numbering (fun x => x) (fun x => x) ⟨"c", 0, "x", "e"⟩ "json"
    "\nError: Expecting value\nInput: c\nOutput: x\nMessage: e\n" (by decide) (by decide)

/-! ### C5: the JSON round trip.  Token-level lemmas first. -/

theorem skipWs_not_ws {c : Char} (hc : isJsonWs c = false) (r : List Char) :
    skipWs (c :: r) = c :: r := by
  simp [skipWs, List.dropWhile_cons, hc]

theorem skipWs_append_ws (ws r : List Char) (h : ∀ c ∈ ws, isJsonWs c = true) :
    skipWs (ws ++ r) = skipWs r := by
  induction ws with
  | nil => rfl
  | cons c cs ih =>
    have hc := h c (List.mem_cons_self c cs)
    rw [List.cons_append]
    show (c :: (cs ++ r)).dropWhile isJsonWs = skipWs r
    rw [List.dropWhile_cons, if_pos (by simp [hc])]
    exact ih fun d hd => h d (List.mem_cons_of_mem _ hd)

theorem indent_all_ws (lvl : Nat) : ∀ c ∈ (indentStr lvl).data, isJsonWs c = true := by
  intro c hc
  have : c = ' ' := List.eq_of_mem_replicate hc
  subst this
  decide

theorem ws_not_digit {c : Char} (h : isJsonWs c = true) : c.isDigit = false := by
  simp only [isJsonWs, Bool.or_eq_true, decide_eq_true_eq] at h
  rcases h with ((h | h) | h) | h <;> subst h <;> decide

theorem parseStrL_rt (cs : List Char)
    (h : ∀ c ∈ cs, (!(c = '"') && !(c = '\\') && !(c.toNat < 32)) = true) (r : List Char) :
    parseStrL (cs ++ '"' :: r) = some (cs, r) := by
  induction cs with
  | nil => simp [parseStrL]
  | cons c cs ih =>
    have hc := h c (List.mem_cons_self c cs)
    simp only [Bool.and_eq_true, Bool.not_eq_true', decide_eq_false_iff_not,
      decide_eq_true_eq] at hc
    obtain ⟨⟨h1, h2⟩, h3⟩ := hc
    rw [List.cons_append, parseStrL, if_neg h1, if_neg (by simp [h2, h3]),
      ih fun d hd => h d (List.mem_cons_of_mem _ hd)]
    rfl

theorem parseStrL_chars : ∀ (l cs r : List Char), parseStrL l = some (cs, r) →
    ∀ c ∈ cs, (!(c = '"') && !(c = '\\') && !(c.toNat < 32)) = true := by
  intro l
  induction l with
  | nil => intro cs r h; simp [parseStrL] at h
  | cons c t ih =>
    intro cs r h
    rw [parseStrL] at h
    by_cases h1 : c = '"'
    · rw [if_pos h1] at h
      injection h with h
      injection h with hcs hr
      subst hcs
      intro d hd
      simp at hd
    · rw [if_neg h1] at h
      by_cases h2 : (decide (c = '\\') || decide (c.toNat < 32)) = true
      · rw [if_pos h2] at h
        cases h
      · rw [if_neg h2] at h
        cases hp : parseStrL t with
        | none => rw [hp] at h; cases h
        | some p =>
          rw [hp] at h
          simp only [Option.map_some] at h
          injection h with h
          injection h with hcs hr
          simp only [Bool.or_eq_true, decide_eq_true_eq, not_or] at h2
          intro d hd
          rw [← hcs] at hd
          rcases List.mem_cons.mp hd with rfl | hd2
          · simp [h1, h2.1, h2.2]
          · exact ih p.1 p.2 (by rw [hp]) d hd2

theorem takeWhile_digits_append (ds r : List Char)
    (hds : ∀ c ∈ ds, c.isDigit = true)
    (hr : ∀ c, r.head? = some c → c.isDigit = false) :
    (ds ++ r).takeWhile Char.isDigit = ds := by
  induction ds with
  | nil =>
    cases r with
    | nil => rfl
    | cons c t => simp [List.takeWhile_cons, hr c rfl]
  | cons d ds ih =>
    have hd := hds d (List.mem_cons_self d ds)
    rw [List.cons_append, List.takeWhile_cons, if_pos (by simp [hd])]
    rw [ih fun c hc => hds c (List.mem_cons_of_mem _ hc)]

theorem parseNatL_rt (n : Nat) (r : List Char)
    (hr : ∀ c, r.head? = some c → c.isDigit = false) :
    parseNatL (natDigits n ++ r) = some (n, r) := by
  have htw : (natDigits n ++ r).takeWhile Char.isDigit = natDigits n :=
    takeWhile_digits_append _ _ (natDigits_all_digits n) hr
  rw [parseNatL, htw]
  by_cases hn : n = 0
  · subst hn
    have h0 : natDigits 0 = ['0'] := by rw [natDigits]; norm_num; decide
    rw [h0]
    simp
  · cases hdt : natDigits n with
    | nil => exact absurd hdt (natDigits_ne_nil n)
    | cons d t =>
      have hd0 : d ≠ '0' := natDigits_head_ne_zero n hn d (by rw [hdt]; rfl)
      show (if d = '0' then some (0, List.drop 1 (d :: t ++ r))
        else some (natOfDigits (d :: t), List.drop (d :: t).length (d :: t ++ r))) =
          some (n, r)
      rw [if_neg hd0, List.drop_left, ← hdt, natOfDigits_natDigits]

theorem isDigit_bounds {c : Char} (h : c.isDigit = true) :
    48 ≤ c.toNat ∧ c.toNat ≤ 57 := by
  simp only [Char.isDigit, Bool.and_eq_true, decide_eq_true_eq, UInt32.le_def,
    BitVec.le_def, Char.toNat, UInt32.toNat] at h ⊢
  exact h

theorem digit_ne {c : Char} (h : c.isDigit = true) (d : Char)
    (hd : d.toNat < 48 ∨ 57 < d.toNat) : c ≠ d := by
  intro he
  subst he
  have := isDigit_bounds h
  omega

theorem digit_not_ws {c : Char} (h : c.isDigit = true) : isJsonWs c = false := by
  cases hw : isJsonWs c with
  | false => rfl
  | true => rw [ws_not_digit hw] at h; cases h

theorem int_repr_ofNat (n : Nat) : (toString (Int.ofNat n)).data = natDigits n := by
  show (Int.repr (Int.ofNat n)).data = natDigits n
  rw [Int.repr, nat_repr_eq]

theorem int_repr_negSucc (n : Nat) :
    (toString (Int.negSucc n)).data = '-' :: natDigits (n + 1) := by
  show (Int.repr (Int.negSucc n)).data = '-' :: natDigits (n + 1)
  rw [Int.repr, nat_repr_eq]
  rfl

theorem parseIntL_rt (i : Int) (r : List Char)
    (hr : ∀ c, r.head? = some c → c.isDigit = false) :
    parseIntL ((toString i).data ++ r) = some (i, r) := by
  cases i with
  | ofNat n =>
    rw [int_repr_ofNat]
    cases hdt : natDigits n with
    | nil => exact absurd hdt (natDigits_ne_nil n)
    | cons d t =>
      have hd : d.isDigit = true := natDigits_all_digits n d (by rw [hdt]; simp)
      have hdm : d ≠ '-' := digit_ne hd '-' (by left; decide)
      rw [List.cons_append, parseIntL]
      show (if d = '-' then _ else (fun p => ((p.1 : Int), p.2)) <$> parseNatL (d :: (t ++ r)))
          = some (Int.ofNat n, r)
      rw [if_neg hdm, ← List.cons_append, ← hdt, parseNatL_rt n r hr]
      rfl
  | negSucc n =>
    rw [int_repr_negSucc, List.cons_append, parseIntL]
    show (if '-' = '-' then (fun p => (-(p.1 : Int), p.2)) <$> parseNatL (natDigits (n + 1) ++ r)
        else _) = some (Int.negSucc n, r)
    rw [if_pos rfl, parseNatL_rt (n + 1) r hr]
    have he : (-((n : Int) + 1)) = Int.negSucc n := (Int.negSucc_eq n).symm
    simp only [Option.map_some]
    rw [show (((n + 1 : Nat) : Int)) = ((n : Int) + 1) from by push_cast; ring, he]

theorem parseVal_null (f : Nat) (rest : List Char) :
    parseVal (f + 1) ('n' :: 'u' :: 'l' :: 'l' :: rest) = some (.jnull, rest) := by
  rw [parseVal, skipWs_not_ws (by decide)]
  simp [startsL, startsL_nil_pat]

theorem parseVal_true (f : Nat) (rest : List Char) :
    parseVal (f + 1) ('t' :: 'r' :: 'u' :: 'e' :: rest) = some (.jbool true, rest) := by
  rw [parseVal, skipWs_not_ws (by decide)]
  simp [startsL, startsL_nil_pat]

theorem parseVal_false (f : Nat) (rest : List Char) :
    parseVal (f + 1) ('f' :: 'a' :: 'l' :: 's' :: 'e' :: rest) = some (.jbool false, rest) := by
  rw [parseVal, skipWs_not_ws (by decide)]
  simp [startsL, startsL_nil_pat]

theorem parseVal_str (f : Nat) (s : String) (hs : strOk s = true) (rest : List Char) :
    parseVal (f + 1) ('"' :: (s.data ++ '"' :: rest)) = some (.jstr s, rest) := by
  rw [parseVal, skipWs_not_ws (by decide)]
  have hchars : ∀ c ∈ s.data, (!(c = '"') && !(c = '\\') && !(c.toNat < 32)) = true :=
    List.all_eq_true.mp hs
  show (fun p => (JValue.jstr ⟨p.1⟩, p.2)) <$> parseStrL (s.data ++ '"' :: rest) =
    some (.jstr s, rest)
  rw [parseStrL_rt s.data hchars rest]
  rfl

theorem parseVal_num_head (f : Nat) (c : Char) (r : List Char)
    (hc : (c = '-' || c.isDigit) = true) (hws : isJsonWs c = false)
    (hn : c ≠ 'n') (ht : c ≠ 't') (hf : c ≠ 'f') (hq : c ≠ '"')
    (hb : c ≠ '[') (hbr : c ≠ '{') :
    parseVal (f + 1) (c :: r) = (fun p => (JValue.jint p.1, p.2)) <$> parseIntL (c :: r) := by
  rw [parseVal, skipWs_not_ws hws]
  simp only [hn, ht, hf, hq, hb, hbr, hc, if_false, if_true, ite_false, ite_true]

theorem parseVal_int (f : Nat) (i : Int) (rest : List Char)
    (hr : ∀ c, rest.head? = some c → c.isDigit = false) :
    parseVal (f + 1) ((toString i).data ++ rest) = some (.jint i, rest) := by
  have hrt := parseIntL_rt i rest hr
  cases i with
  | ofNat n =>
    rw [int_repr_ofNat] at hrt ⊢
    cases hdt : natDigits n with
    | nil => exact absurd hdt (natDigits_ne_nil n)
    | cons d t =>
      rw [hdt] at hrt
      have hd : d.isDigit = true := natDigits_all_digits n d (by rw [hdt]; simp)
      rw [List.cons_append] at hrt ⊢
      rw [parseVal_num_head f d (t ++ rest) (by simp [hd]) (digit_not_ws hd)
        (digit_ne hd 'n' (by right; decide)) (digit_ne hd 't' (by right; decide))
        (digit_ne hd 'f' (by right; decide)) (digit_ne hd '"' (by left; decide))
        (digit_ne hd '[' (by right; decide)) (digit_ne hd '{' (by right; decide)), hrt]
      rfl
  | negSucc n =>
    rw [int_repr_negSucc] at hrt ⊢
    rw [List.cons_append] at hrt ⊢
    rw [parseVal_num_head f '-' (natDigits (n + 1) ++ rest) (by decide) (by decide)
      (by decide) (by decide) (by decide) (by decide) (by decide) (by decide), hrt]
    rfl

theorem dumps_head (lvl : Nat) (w : JValue) :
    ∃ c t, (dumpsVal lvl w).data = c :: t ∧ isJsonWs c = false ∧ c ≠ ']' ∧ c ≠ '}' := by
  cases w with
  | jnull => exact ⟨'n', ['u', 'l', 'l'], by rw [dumpsVal], by decide, by decide, by decide⟩
  | jbool b =>
    cases b with
    | true =>
      refine ⟨'t', ['r', 'u', 'e'], ?_, by decide, by decide, by decide⟩
      rw [dumpsVal]
      rfl
    | false =>
      refine ⟨'f', ['a', 'l', 's', 'e'], ?_, by decide, by decide, by decide⟩
      rw [dumpsVal]
      rfl
  | jint i =>
    cases i with
    | ofNat n =>
      cases hdt : natDigits n with
      | nil => exact absurd hdt (natDigits_ne_nil n)
      | cons d t =>
        have hd : d.isDigit = true := natDigits_all_digits n d (by rw [hdt]; simp)
        refine ⟨d, t, ?_, digit_not_ws hd, digit_ne hd ']' (by right; decide),
          digit_ne hd '}' (by right; decide)⟩
        rw [dumpsVal, int_repr_ofNat, hdt]
    | negSucc n =>
      refine ⟨'-', natDigits (n + 1), ?_, by decide, by decide, by decide⟩
      rw [dumpsVal, int_repr_negSucc]
  | jstr s =>
    refine ⟨'"', s.data ++ ['"'], ?_, by decide, by decide, by decide⟩
    rw [dumpsVal]
    simp [String.data_append]
  | jarr l =>
    cases l with
    | nil => exact ⟨'[', [']'], by rw [dumpsVal], by decide, by decide, by decide⟩
    | cons v vs =>
      refine ⟨'[', ('\n' :: (dumpsItems (lvl + 1) v vs).data) ++ '\n' ::
        (indentStr lvl).data ++ [']'], ?_, by decide, by decide, by decide⟩
      rw [dumpsVal]
      simp [String.data_append]
  | jobj l =>
    cases l with
    | nil => exact ⟨'{', ['}'], by rw [dumpsVal], by decide, by decide, by decide⟩
    | cons f fs =>
      refine ⟨'{', ('\n' :: (dumpsFields (lvl + 1) f.1 f.2 fs).data) ++ '\n' ::
        (indentStr lvl).data ++ ['}'], ?_, by decide, by decide, by decide⟩
      obtain ⟨k, v⟩ := f
      rw [dumpsVal]
      simp [String.data_append]

theorem dumps_skipWs (lvl : Nat) (w : JValue) (x : List Char) :
    skipWs ((dumpsVal lvl w).data ++ x) = (dumpsVal lvl w).data ++ x ∧
    ((dumpsVal lvl w).data ++ x).head? ≠ some ']' ∧
    ((dumpsVal lvl w).data ++ x).head? ≠ some '}' := by
  obtain ⟨c, t, hct, hws, h1, h2⟩ := dumps_head lvl w
  rw [hct, List.cons_append]
  refine ⟨skipWs_not_ws hws _, ?_, ?_⟩ <;>
    simp [h1, h2]

theorem string_contains_iff (l : List String) (a : String) :
    l.contains a = true ↔ a ∈ l := by
  show l.elem a = true ↔ a ∈ l
  exact List.elem_iff

theorem lastVal_of_keys_ne (k : String) (v : JValue) (rest : List (String × JValue))
    (h : ∀ p ∈ rest, ¬ p.1 = k) : lastVal k v rest = v := by
  rw [lastVal]
  have hn : rest.reverse.find? (fun p => p.1 = k) = none := by
    apply List.find?_eq_none.mpr
    intro p hp
    simp [h p (List.mem_reverse.mp hp)]
  rw [hn]

theorem lastVal_pair_mem (k : String) (v : JValue) (rest : List (String × JValue)) :
    (k, lastVal k v rest) = (k, v) ∨ (k, lastVal k v rest) ∈ rest := by
  rw [lastVal]
  cases hf : rest.reverse.find? (fun p => p.1 = k) with
  | none => left; rfl
  | some q =>
    right
    have hq : q ∈ rest.reverse := List.mem_of_find?_eq_some hf
    have hk : q.1 = k := by simpa using List.find?_some hf
    have hqe : (k, q.2) = q := by rw [← hk]
    rw [hqe]
    exact List.mem_reverse.mp hq

theorem dedupAux_sub : ∀ (fs : List (String × JValue)) (seen : List String),
    ∀ p ∈ dedupAux seen fs, p ∈ fs := by
  intro fs
  induction fs with
  | nil => intro seen p hp; simp [dedupAux] at hp
  | cons f rest ih =>
    intro seen p hp
    obtain ⟨k, v⟩ := f
    rw [dedupAux] at hp
    by_cases hc : seen.contains k = true
    · rw [if_pos hc] at hp
      exact List.mem_cons_of_mem _ (ih seen p hp)
    · rw [if_neg hc] at hp
      rcases List.mem_cons.mp hp with rfl | hp2
      · rcases lastVal_pair_mem k v rest with he | hm
        · rw [he]
          exact List.mem_cons_self _ _
        · exact List.mem_cons_of_mem _ hm
      · exact List.mem_cons_of_mem _ (ih (k :: seen) p hp2)

theorem dedupAux_keys : ∀ (fs : List (String × JValue)) (seen : List String),
    ((dedupAux seen fs).map Prod.fst).Nodup ∧
    ∀ k ∈ (dedupAux seen fs).map Prod.fst, k ∉ seen := by
  intro fs
  induction fs with
  | nil => intro seen; simp [dedupAux]
  | cons f rest ih =>
    intro seen
    obtain ⟨k, v⟩ := f
    rw [dedupAux]
    by_cases hc : seen.contains k = true
    · rw [if_pos hc]
      exact ih seen
    · rw [if_neg hc]
      obtain ⟨ihn, ihs⟩ := ih (k :: seen)
      constructor
      · rw [List.map_cons]
        refine List.nodup_cons.mpr ⟨?_, ihn⟩
        intro hk
        exact (ihs k hk) (List.mem_cons_self _ _)
      · intro k2 hk2
        rw [List.map_cons] at hk2
        rcases List.mem_cons.mp hk2 with rfl | hk3
        · intro hmem
          exact hc ((string_contains_iff seen k2).mpr hmem)
        · intro hmem
          exact (ihs k2 hk3) (List.mem_cons_of_mem _ hmem)

theorem dedupAux_of_nodup : ∀ (fs : List (String × JValue)) (seen : List String),
    (∀ p ∈ fs, p.1 ∉ seen) → (fs.map Prod.fst).Nodup → dedupAux seen fs = fs := by
  intro fs
  induction fs with
  | nil => intro seen _ _; rfl
  | cons f rest ih =>
    intro seen hsn hnd
    obtain ⟨k, v⟩ := f
    rw [List.map_cons, List.nodup_cons] at hnd
    have hks : k ∉ seen := hsn (k, v) (List.mem_cons_self _ _)
    have hcf : ¬ seen.contains k = true := fun hc =>
      hks ((string_contains_iff seen k).mp hc)
    rw [dedupAux, if_neg hcf]
    have hkr : ∀ p ∈ rest, ¬ p.1 = k := by
      intro p hp he
      have hmm := List.mem_map_of_mem Prod.fst hp
      rw [he] at hmm
      exact hnd.1 hmm
    rw [lastVal_of_keys_ne k v rest hkr]
    rw [ih (k :: seen) ?_ hnd.2]
    intro p hp
    rw [List.mem_cons]
    push_neg
    exact ⟨hkr p hp, hsn p (List.mem_cons_of_mem _ hp)⟩

theorem dedupKeys_of_nodup (fs : List (String × JValue))
    (h : (fs.map Prod.fst).Nodup) : dedupKeys fs = fs :=
  dedupAux_of_nodup fs [] (fun _ _ => List.not_mem_nil _) h

theorem wfFields_iff (fs : List (String × JValue)) :
    wfFields fs = true ↔ (∀ p ∈ fs, strOk p.1 = true ∧ wfJson p.2 = true) ∧
      (fs.map Prod.fst).Nodup := by
  induction fs with
  | nil => simp [wfFields]
  | cons f rest ih =>
    obtain ⟨k, v⟩ := f
    rw [wfFields]
    simp only [Bool.and_eq_true, List.all_eq_true, ih, List.map_cons, List.nodup_cons,
      List.forall_mem_cons, List.mem_map, Bool.not_eq_true', decide_eq_false_iff_not]
    constructor
    · rintro ⟨⟨⟨hk, hall⟩, hv⟩, hrest, hnd⟩
      refine ⟨⟨⟨hk, hv⟩, hrest⟩, ?_, hnd⟩
      rintro ⟨p, hp, hpk⟩
      exact hall p hp hpk
    · rintro ⟨⟨⟨hk, hv⟩, hrest⟩, hnk, hnd⟩
      exact ⟨⟨⟨hk, fun p hp hpk => hnk ⟨p, hp, hpk⟩⟩, hv⟩, hrest, hnd⟩

theorem wfFields_dedup (fs : List (String × JValue))
    (h : ∀ p ∈ fs, strOk p.1 = true ∧ wfJson p.2 = true) :
    wfFields (dedupKeys fs) = true := by
  rw [wfFields_iff]
  exact ⟨fun p hp => h p (dedupAux_sub fs [] p hp), (dedupAux_keys fs []).1⟩

theorem parse_wf : ∀ fuel : Nat,
    (∀ s v r, parseVal fuel s = some (v, r) → wfJson v = true) ∧
    (∀ s vs r, parseArr fuel s = some (vs, r) → wfList vs = true) ∧
    (∀ s fs r, parseObjFields fuel s = some (fs, r) →
      ∀ p ∈ fs, strOk p.1 = true ∧ wfJson p.2 = true) := by
  intro fuel
  induction fuel with
  | zero =>
    refine ⟨?_, ?_, ?_⟩
    · intro s v r h; rw [parseVal] at h; cases h
    · intro s vs r h; rw [parseArr] at h; cases h
    · intro s fs r h; rw [parseObjFields] at h; cases h
  | succ fuel ih =>
    obtain ⟨ihV, ihA, ihF⟩ := ih
    refine ⟨?_, ?_, ?_⟩
    · intro s v r h
      rw [parseVal] at h
      split at h
      · cases h
      · rename_i c cs heq
        by_cases h1 : c = 'n'
        · rw [if_pos h1] at h
          by_cases h1b : startsL cs ['u', 'l', 'l'] = true
          · rw [if_pos h1b] at h
            injection h with h
            injection h with hv hr
            subst hv
            rw [wfJson]
          · rw [if_neg h1b] at h; cases h
        · rw [if_neg h1] at h
          by_cases h2 : c = 't'
          · rw [if_pos h2] at h
            by_cases h2b : startsL cs ['r', 'u', 'e'] = true
            · rw [if_pos h2b] at h
              injection h with h
              injection h with hv hr
              subst hv
              rw [wfJson]
            · rw [if_neg h2b] at h; cases h
          · rw [if_neg h2] at h
            by_cases h3 : c = 'f'
            · rw [if_pos h3] at h
              by_cases h3b : startsL cs ['a', 'l', 's', 'e'] = true
              · rw [if_pos h3b] at h
                injection h with h
                injection h with hv hr
                subst hv
                rw [wfJson]
              · rw [if_neg h3b] at h; cases h
            · rw [if_neg h3] at h
              by_cases h4 : c = '"'
              · rw [if_pos h4] at h
                cases hp : parseStrL cs with
                | none => rw [hp] at h; cases h
                | some p =>
                  rw [hp] at h
                  simp only [Option.map_some] at h
                  injection h with h
                  injection h with hv hr
                  subst hv
                  rw [wfJson]
                  exact List.all_eq_true.mpr (parseStrL_chars cs p.1 p.2 (by rw [hp]))
              · rw [if_neg h4] at h
                by_cases h5 : c = '['
                · rw [if_pos h5] at h
                  by_cases h5b : (skipWs cs).head? = some ']'
                  · rw [if_pos h5b] at h
                    injection h with h
                    injection h with hv hr
                    subst hv
                    rw [wfJson, wfList]
                  · rw [if_neg h5b] at h
                    cases hp : parseArr fuel cs with
                    | none => rw [hp] at h; cases h
                    | some p =>
                      rw [hp] at h
                      simp only [Option.map_some] at h
                      injection h with h
                      injection h with hv hr
                      subst hv
                      rw [wfJson]
                      exact ihA cs p.1 p.2 (by rw [hp])
                · rw [if_neg h5] at h
                  by_cases h6 : c = '{'
                  · rw [if_pos h6] at h
                    by_cases h6b : (skipWs cs).head? = some '}'
                    · rw [if_pos h6b] at h
                      injection h with h
                      injection h with hv hr
                      subst hv
                      rw [wfJson, wfFields]
                    · rw [if_neg h6b] at h
                      cases hp : parseObjFields fuel cs with
                      | none => rw [hp] at h; cases h
                      | some p =>
                        rw [hp] at h
                        simp only [Option.map_some] at h
                        injection h with h
                        injection h with hv hr
                        subst hv
                        rw [wfJson]
                        exact wfFields_dedup p.1 (ihF cs p.1 p.2 (by rw [hp]))
                  · rw [if_neg h6] at h
                    by_cases h7 : (c = '-' || c.isDigit) = true
                    · rw [if_pos h7] at h
                      cases hp : parseIntL (c :: cs) with
                      | none => rw [hp] at h; cases h
                      | some p =>
                        rw [hp] at h
                        simp only [Option.map_some] at h
                        injection h with h
                        injection h with hv hr
                        subst hv
                        rw [wfJson]
                    · rw [if_neg h7] at h; cases h
    · intro s vs r h
      rw [parseArr] at h
      split at h
      · cases h
      · rename_i v r1 heq
        split at h
        · cases h
        · rename_i c r2 heq2
          by_cases h1 : c = ','
          · rw [if_pos h1] at h
            split at h
            · rename_i vs1 r3 heq3
              injection h with h
              injection h with hv hr
              subst hv
              rw [wfList, Bool.and_eq_true]
              exact ⟨ihV _ _ _ heq, ihA _ _ _ heq3⟩
            · cases h
          · rw [if_neg h1] at h
            by_cases h2 : c = ']'
            · rw [if_pos h2] at h
              injection h with h
              injection h with hv hr
              subst hv
              simp only [wfList, Bool.and_true]
              exact ihV _ _ _ heq
            · rw [if_neg h2] at h; cases h
    · intro s fs r h
      rw [parseObjFields] at h
      split at h
      · cases h
      · rename_i c cs heq
        by_cases h1 : c = '"'
        · rw [if_pos h1] at h
          split at h
          · cases h
          · rename_i k r2 heq2
            split at h
            · cases h
            · rename_i c2 r3 heq3
              by_cases h2 : c2 = ':'
              · rw [if_pos h2] at h
                split at h
                · cases h
                · rename_i v r4 heq4
                  split at h
                  · cases h
                  · rename_i c3 r5 heq5
                    by_cases h3 : c3 = ','
                    · rw [if_pos h3] at h
                      split at h
                      · rename_i fs1 r6 heq6
                        injection h with h
                        injection h with hf hr
                        subst hf
                        intro p hp
                        rcases List.mem_cons.mp hp with rfl | hp2
                        · exact ⟨List.all_eq_true.mpr (parseStrL_chars cs k r2 heq2),
                            ihV _ _ _ heq4⟩
                        · exact ihF _ _ _ heq6 p hp2
                      · cases h
                    · rw [if_neg h3] at h
                      by_cases h4 : c3 = '}'
                      · rw [if_pos h4] at h
                        injection h with h
                        injection h with hf hr
                        subst hf
                        intro p hp
                        rcases List.mem_cons.mp hp with rfl | hp2
                        · exact ⟨List.all_eq_true.mpr (parseStrL_chars cs k r2 heq2),
                            ihV _ _ _ heq4⟩
                        · simp at hp2
                      · rw [if_neg h4] at h; cases h
              · rw [if_neg h2] at h; cases h
        · rw [if_neg h1] at h; cases h

theorem uint32_lt_asymm {a b : UInt32} (h : a < b) : ¬ b < a := by
  simp only [UInt32.lt_def, BitVec.lt_def] at h ⊢
  omega

theorem uint32_lt_ne {a b : UInt32} (h : a < b) : b ≠ a := by
  intro he
  subst he
  simp only [UInt32.lt_def, BitVec.lt_def] at h
  omega

theorem uint32_lt_trans {a b c : UInt32} (h1 : a < b) (h2 : b < c) : a < c := by
  simp only [UInt32.lt_def, BitVec.lt_def] at h1 h2 ⊢
  omega

theorem strLtL_asymm : ∀ a b : List Char, strLtL a b = true → strLtL b a = false := by
  intro a
  induction a with
  | nil =>
    intro b h
    cases b with
    | nil => rw [strLtL] at h; cases h
    | cons c cs => rw [strLtL]
  | cons x xs ih =>
    intro b h
    cases b with
    | nil => rw [strLtL] at h; cases h
    | cons y ys =>
      rw [strLtL] at h ⊢
      by_cases h1 : x.val < y.val
      · rw [if_neg (uint32_lt_asymm h1), if_neg (uint32_lt_ne h1)]
      · rw [if_neg h1] at h
        by_cases h2 : x.val = y.val
        · rw [if_pos h2] at h
          rw [if_neg (by rw [← h2]; simp only [UInt32.lt_def, BitVec.lt_def]; omega),
            if_pos h2.symm]
          exact ih ys h
        · rw [if_neg h2] at h
          cases h

theorem strLtL_trans : ∀ a b c : List Char,
    strLtL a b = true → strLtL b c = true → strLtL a c = true := by
  intro a
  induction a with
  | nil =>
    intro b c hab hbc
    cases b with
    | nil => rw [strLtL] at hab; cases hab
    | cons y ys =>
      cases c with
      | nil => rw [strLtL] at hbc; cases hbc
      | cons z zs => rw [strLtL]
  | cons x xs ih =>
    intro b c hab hbc
    cases b with
    | nil => rw [strLtL] at hab; cases hab
    | cons y ys =>
      cases c with
      | nil => rw [strLtL] at hbc; cases hbc
      | cons z zs =>
        rw [strLtL] at hab hbc ⊢
        by_cases h1 : x.val < y.val
        · by_cases h2 : y.val < z.val
          · rw [if_pos (uint32_lt_trans h1 h2)]
          · rw [if_neg h2] at hbc
            by_cases h3 : y.val = z.val
            · rw [if_pos (h3 ▸ h1)]
            · rw [if_neg h3] at hbc; cases hbc
        · rw [if_neg h1] at hab
          by_cases h2 : x.val = y.val
          · rw [if_pos h2] at hab
            by_cases h3 : y.val < z.val
            · rw [if_pos (h2 ▸ h3)]
            · rw [if_neg h3] at hbc
              by_cases h4 : y.val = z.val
              · rw [if_pos h4] at hbc
                rw [if_neg (by rw [h2, h4] at h1 ⊢; exact h1), if_pos (h2.trans h4)]
                exact ih ys zs hab hbc
              · rw [if_neg h4] at hbc; cases hbc
          · rw [if_neg h2] at hab; cases hab

theorem insertPair_perm (x : String × JValue) (l : List (String × JValue)) :
    List.Perm (insertPair x l) (x :: l) := by
  induction l with
  | nil => exact List.Perm.refl _
  | cons y ys ih =>
    rw [insertPair]
    by_cases h : strLtL x.1.data y.1.data = true
    · rw [if_pos h]
    · rw [if_neg h]
      exact (ih.cons y).trans (List.Perm.swap x y ys)

theorem sortPairs_perm (l : List (String × JValue)) : List.Perm (sortPairs l) l := by
  induction l with
  | nil => exact List.Perm.refl _
  | cons x xs ih =>
    rw [sortPairs]
    exact (insertPair_perm x (sortPairs xs)).trans (ih.cons x)

theorem pairwise_insertPair (x : String × JValue) (l : List (String × JValue))
    (hl : l.Pairwise fun p q => strLtL q.1.data p.1.data = false) :
    (insertPair x l).Pairwise fun p q => strLtL q.1.data p.1.data = false := by
  induction l with
  | nil => simp [insertPair]
  | cons y ys ih =>
    rw [insertPair]
    rcases List.pairwise_cons.mp hl with ⟨hy, hys⟩
    by_cases hxy : strLtL x.1.data y.1.data = true
    · rw [if_pos hxy]
      refine List.pairwise_cons.mpr ⟨?_, hl⟩
      intro z hz
      rcases List.mem_cons.mp hz with rfl | hz2
      · exact strLtL_asymm _ _ hxy
      · cases hc : strLtL z.1.data x.1.data with
        | false => rfl
        | true =>
          have := strLtL_trans _ _ _ hc hxy
          rw [hy z hz2] at this
          cases this
    · rw [if_neg hxy]
      refine List.pairwise_cons.mpr ⟨?_, ih hys⟩
      intro z hz
      have hz2 : z = x ∨ z ∈ ys :=
        List.mem_cons.mp ((insertPair_perm x ys).mem_iff.mp hz)
      rcases hz2 with rfl | hz3
      · exact Bool.not_eq_true _ ▸ (by simpa using hxy)
      · exact hy z hz3

theorem sortPairs_sorted (l : List (String × JValue)) :
    (sortPairs l).Pairwise fun p q => strLtL q.1.data p.1.data = false := by
  induction l with
  | nil => simp [sortPairs]
  | cons x xs ih =>
    rw [sortPairs]
    exact pairwise_insertPair x _ ih

mutual

theorem wf_sortJson : ∀ (v : JValue), wfJson v = true → wfJson (sortJson v) = true
  | .jnull, h => by rw [sortJson]; exact h
  | .jbool b, h => by rw [sortJson]; exact h
  | .jint n, h => by rw [sortJson]; exact h
  | .jstr s, h => by rw [sortJson]; exact h
  | .jarr l, h => by
    rw [sortJson, wfJson]
    rw [wfJson] at h
    exact wf_sortList l h
  | .jobj fs, h => by
    rw [sortJson, wfJson]
    rw [wfJson] at h
    rw [wfFields_iff] at h ⊢
    obtain ⟨hpairs, hnd⟩ := h
    obtain ⟨hp2, hmap⟩ := wf_sortFields fs hpairs
    have hperm := sortPairs_perm (sortJsonFields fs)
    constructor
    · intro p hp
      exact hp2 p (hperm.mem_iff.mp hp)
    · have hmp : List.Perm ((sortPairs (sortJsonFields fs)).map Prod.fst)
          ((sortJsonFields fs).map Prod.fst) := hperm.map _
      rw [hmp.nodup_iff, hmap]
      exact hnd
termination_by v => sizeOf v

theorem wf_sortList : ∀ (l : List JValue), wfList l = true → wfList (sortJsonList l) = true
  | [], h => by rw [sortJsonList]; exact h
  | v :: vs, h => by
    rw [sortJsonList, wfList, Bool.and_eq_true]
    rw [wfList, Bool.and_eq_true] at h
    exact ⟨wf_sortJson v h.1, wf_sortList vs h.2⟩
termination_by l => sizeOf l

theorem wf_sortFields : ∀ (fs : List (String × JValue)),
    (∀ p ∈ fs, strOk p.1 = true ∧ wfJson p.2 = true) →
    (∀ p ∈ sortJsonFields fs, strOk p.1 = true ∧ wfJson p.2 = true) ∧
    (sortJsonFields fs).map Prod.fst = fs.map Prod.fst
  | [], h => by rw [sortJsonFields]; exact ⟨by simp, rfl⟩
  | (k, v) :: gs, h => by
    rw [sortJsonFields]
    obtain ⟨ih1, ih2⟩ := wf_sortFields gs fun p hp => h p (List.mem_cons_of_mem _ hp)
    constructor
    · intro p hp
      rcases List.mem_cons.mp hp with rfl | hp2
      · exact ⟨(h (k, v) (List.mem_cons_self _ _)).1,
          wf_sortJson v (h (k, v) (List.mem_cons_self _ _)).2⟩
      · exact ih1 p hp2
    · rw [List.map_cons, List.map_cons, ih2]
termination_by fs => sizeOf fs

end

theorem indent_len (lvl : Nat) : (indentStr lvl).data.length = 4 * lvl := by
  simp [indentStr]

theorem toString_int_len_pos (i : Int) : 1 ≤ (toString i).data.length := by
  cases i with
  | ofNat n =>
    rw [int_repr_ofNat]
    cases hdt : natDigits n with
    | nil => exact absurd hdt (natDigits_ne_nil n)
    | cons d t => simp
  | negSucc n => rw [int_repr_negSucc]; simp

mutual

theorem jfuel_le_dumps : ∀ (w : JValue) (lvl : Nat),
    jfuel w + 1 ≤ 2 * (dumpsVal lvl w).data.length
  | .jnull, lvl => by
    have h1 : jfuel .jnull = 1 := by rw [jfuel.eq_def]
    have h2 : (dumpsVal lvl .jnull).data.length = 4 := by rw [dumpsVal]; decide
    omega
  | .jbool true, lvl => by
    have h1 : jfuel (.jbool true) = 1 := by rw [jfuel.eq_def]
    have h2 : (dumpsVal lvl (.jbool true)).data.length = 4 := by rw [dumpsVal]; decide
    omega
  | .jbool false, lvl => by
    have h1 : jfuel (.jbool false) = 1 := by rw [jfuel.eq_def]
    have h2 : (dumpsVal lvl (.jbool false)).data.length = 5 := by rw [dumpsVal]; decide
    omega
  | .jint i, lvl => by
    have h1 : jfuel (.jint i) = 1 := by rw [jfuel.eq_def]
    have h2 : (dumpsVal lvl (.jint i)).data.length = (toString i).data.length := by
      rw [dumpsVal]
    have h3 := toString_int_len_pos i
    omega
  | .jstr s, lvl => by
    have h1 : jfuel (.jstr s) = 1 := by rw [jfuel.eq_def]
    have h2 : (dumpsVal lvl (.jstr s)).data.length = s.data.length + 2 := by
      rw [dumpsVal]
      simp only [String.data_append, List.length_append,
        show ("\"" : String).data = ['"'] from rfl, List.length_cons, List.length_nil]
      omega
    omega
  | .jarr [], lvl => by
    have h1 : jfuel (.jarr []) = 1 := by rw [jfuel.eq_def]
    have h2 : (dumpsVal lvl (.jarr [])).data.length = 2 := by rw [dumpsVal]; decide
    omega
  | .jarr (v :: vs), lvl => by
    have h1 : jfuel (.jarr (v :: vs)) = 1 + jfuelItems v vs := by rw [jfuel]
    have hIH := jfuelItems_le v vs (lvl + 1)
    have h2 : (dumpsVal lvl (.jarr (v :: vs))).data.length =
        (dumpsItems (lvl + 1) v vs).data.length + 4 * lvl + 4 := by
      rw [dumpsVal]
      simp only [String.data_append, List.length_append, indent_len,
        show ("[\n" : String).data = ['[', '\n'] from rfl,
        show ("\n" : String).data = ['\n'] from rfl,
        show ("]" : String).data = [']'] from rfl, List.length_cons, List.length_nil]
      omega
    omega
  | .jobj [], lvl => by
    have h1 : jfuel (.jobj []) = 1 := by rw [jfuel.eq_def]
    have h2 : (dumpsVal lvl (.jobj [])).data.length = 2 := by rw [dumpsVal]; decide
    omega
  | .jobj ((k, v) :: fs), lvl => by
    have h1 : jfuel (.jobj ((k, v) :: fs)) = 1 + jfuelFields v fs := by rw [jfuel]
    have hIH := jfuelFields_le k v fs (lvl + 1)
    have h2 : (dumpsVal lvl (.jobj ((k, v) :: fs))).data.length =
        (dumpsFields (lvl + 1) k v fs).data.length + 4 * lvl + 4 := by
      rw [dumpsVal]
      simp only [String.data_append, List.length_append, indent_len,
        show ("\x7b\n" : String).data = ['{', '\n'] from rfl,
        show ("\n" : String).data = ['\n'] from rfl,
        show ("\x7d" : String).data = ['}'] from rfl, List.length_cons, List.length_nil]
      omega
    omega
termination_by w lvl => sizeOf w

theorem jfuelItems_le : ∀ (v : JValue) (vs : List JValue) (lvl : Nat),
    jfuelItems v vs ≤ 2 * (dumpsItems lvl v vs).data.length
  | v, [], lvl => by
    have h1 : jfuelItems v [] = 1 + jfuel v := by rw [jfuelItems]
    have hIH := jfuel_le_dumps v lvl
    have h2 : (dumpsItems lvl v []).data.length =
        4 * lvl + (dumpsVal lvl v).data.length := by
      rw [dumpsItems]
      simp only [String.data_append, List.length_append, indent_len]
    omega
  | v, w :: ws, lvl => by
    have h1 : jfuelItems v (w :: ws) = 1 + jfuel v + jfuelItems w ws := by rw [jfuelItems]
    have hIH1 := jfuel_le_dumps v lvl
    have hIH2 := jfuelItems_le w ws lvl
    have h2 : (dumpsItems lvl v (w :: ws)).data.length =
        4 * lvl + (dumpsVal lvl v).data.length + 2 + (dumpsItems lvl w ws).data.length := by
      rw [dumpsItems]
      simp only [String.data_append, List.length_append, indent_len,
        show (",\n" : String).data = [',', '\n'] from rfl, List.length_cons, List.length_nil]
    omega
termination_by v vs lvl => sizeOf v + sizeOf vs

theorem jfuelFields_le : ∀ (k : String) (v : JValue) (fs : List (String × JValue)) (lvl : Nat),
    jfuelFields v fs ≤ 2 * (dumpsFields lvl k v fs).data.length
  | k, v, [], lvl => by
    have h1 : jfuelFields v [] = 1 + jfuel v := by rw [jfuelFields]
    have hIH := jfuel_le_dumps v lvl
    have h2 : (dumpsFields lvl k v []).data.length =
        4 * lvl + k.data.length + 4 + (dumpsVal lvl v).data.length := by
      rw [dumpsFields]
      simp only [String.data_append, List.length_append, indent_len,
        show ("\"" : String).data = ['"'] from rfl,
        show ("\": " : String).data = ['"', ':', ' '] from rfl,
        List.length_cons, List.length_nil]
      omega
    omega
  | k, v, (k2, v2) :: gs, lvl => by
    have h1 : jfuelFields v ((k2, v2) :: gs) = 1 + jfuel v + jfuelFields v2 gs := by
      rw [jfuelFields]
    have hIH1 := jfuel_le_dumps v lvl
    have hIH2 := jfuelFields_le k2 v2 gs lvl
    have h2 : (dumpsFields lvl k v ((k2, v2) :: gs)).data.length =
        4 * lvl + k.data.length + 4 + (dumpsVal lvl v).data.length + 2 +
          (dumpsFields lvl k2 v2 gs).data.length := by
      rw [dumpsFields]
      simp only [String.data_append, List.length_append, indent_len,
        show ("\"" : String).data = ['"'] from rfl,
        show ("\": " : String).data = ['"', ':', ' '] from rfl,
        show (",\n" : String).data = [',', '\n'] from rfl,
        List.length_cons, List.length_nil]
      omega
    omega
termination_by k v fs lvl => sizeOf v + sizeOf fs

end

theorem jfuel_pos (w : JValue) : 1 ≤ jfuel w := by
  rw [jfuel.eq_def]
  split <;> omega

theorem jfuelItems_pos (v : JValue) (vs : List JValue) : 1 ≤ jfuelItems v vs := by
  rw [jfuelItems.eq_def]
  split <;> omega

theorem jfuelFields_pos (v : JValue) (fs : List (String × JValue)) : 1 ≤ jfuelFields v fs := by
  rw [jfuelFields.eq_def]
  split <;> omega

theorem parseVal_ws (f : Nat) (ws s : List Char) (h : ∀ c ∈ ws, isJsonWs c = true) :
    parseVal (f + 1) (ws ++ s) = parseVal (f + 1) s := by
  rw [parseVal, parseVal, skipWs_append_ws ws s h]

theorem parseVal_arr_nil (f : Nat) (rest : List Char) :
    parseVal (f + 1) ('[' :: ']' :: rest) = some (.jarr [], rest) := by
  rw [parseVal, skipWs_not_ws (by decide)]
  show (if (skipWs (']' :: rest)).head? = some ']' then
      some (JValue.jarr [], (skipWs (']' :: rest)).tail)
    else (fun p => (JValue.jarr p.1, p.2)) <$> parseArr f (']' :: rest)) =
    some (.jarr [], rest)
  rw [skipWs_not_ws (by decide)]
  rw [if_pos (show (']' :: rest).head? = some ']' from rfl)]
  rfl

theorem parseVal_obj_nil (f : Nat) (rest : List Char) :
    parseVal (f + 1) ('{' :: '}' :: rest) = some (.jobj [], rest) := by
  rw [parseVal, skipWs_not_ws (by decide)]
  show (if (skipWs ('}' :: rest)).head? = some '}' then
      some (JValue.jobj [], (skipWs ('}' :: rest)).tail)
    else (fun p => (JValue.jobj (dedupKeys p.1), p.2)) <$> parseObjFields f ('}' :: rest)) =
    some (.jobj [], rest)
  rw [skipWs_not_ws (by decide)]
  rw [if_pos (show ('}' :: rest).head? = some '}' from rfl)]
  rfl

theorem parseVal_arr_go (f : Nat) (r : List Char) (c0 : Char) (t0 : List Char)
    (hsk : skipWs r = c0 :: t0) (hne : c0 ≠ ']') :
    parseVal (f + 1) ('[' :: r) =
      (fun p => (JValue.jarr p.1, p.2)) <$> parseArr f r := by
  rw [parseVal, skipWs_not_ws (by decide)]
  show (if (skipWs r).head? = some ']' then some (JValue.jarr [], (skipWs r).tail)
    else (fun p => (JValue.jarr p.1, p.2)) <$> parseArr f r) = _
  rw [hsk, if_neg (by simp [hne])]

theorem parseVal_obj_go (f : Nat) (r : List Char) (c0 : Char) (t0 : List Char)
    (hsk : skipWs r = c0 :: t0) (hne : c0 ≠ '}') :
    parseVal (f + 1) ('{' :: r) =
      (fun p => (JValue.jobj (dedupKeys p.1), p.2)) <$> parseObjFields f r := by
  rw [parseVal, skipWs_not_ws (by decide)]
  show (if (skipWs r).head? = some '}' then some (JValue.jobj [], (skipWs r).tail)
    else (fun p => (JValue.jobj (dedupKeys p.1), p.2)) <$> parseObjFields f r) = _
  rw [hsk, if_neg (by simp [hne])]

theorem items_skipWs_head (lvl : Nat) (v : JValue) (vs : List JValue) (x : List Char) :
    ∃ c t, skipWs ((dumpsItems lvl v vs).data ++ x) = c :: t ∧ c ≠ ']' ∧ c ≠ '}' := by
  have hsplit : ∃ y, (dumpsItems lvl v vs).data =
      (indentStr lvl).data ++ ((dumpsVal lvl v).data ++ y) := by
    cases vs with
    | nil =>
      refine ⟨[], ?_⟩
      rw [dumpsItems]
      simp [String.data_append]
    | cons w ws =>
      refine ⟨(",\n" ++ dumpsItems lvl w ws).data, ?_⟩
      rw [dumpsItems]
      simp [String.data_append, List.append_assoc]
  obtain ⟨y, hy⟩ := hsplit
  obtain ⟨c, t, hct, hcw, h1, h2⟩ := dumps_head lvl v
  refine ⟨c, t ++ (y ++ x), ?_, h1, h2⟩
  rw [hy, List.append_assoc, skipWs_append_ws _ _ (indent_all_ws lvl), List.append_assoc,
    hct, List.cons_append, skipWs_not_ws hcw]

theorem fields_skipWs_head (lvl : Nat) (k : String) (v : JValue)
    (fs : List (String × JValue)) (x : List Char) :
    ∃ c t, skipWs ((dumpsFields lvl k v fs).data ++ x) = c :: t ∧ c ≠ ']' ∧ c ≠ '}' := by
  have hsplit : ∃ y, (dumpsFields lvl k v fs).data =
      (indentStr lvl).data ++ ('"' :: y) := by
    cases fs with
    | nil =>
      refine ⟨k.data ++ (('"' :: (':' :: (' ' :: []))) ++ (dumpsVal lvl v).data), ?_⟩
      rw [dumpsFields]
      simp [String.data_append, List.append_assoc]
    | cons g gs =>
      refine ⟨k.data ++ (('"' :: (':' :: (' ' :: []))) ++ ((dumpsVal lvl v).data ++
        (",\n" ++ dumpsFields lvl g.1 g.2 gs).data)), ?_⟩
      obtain ⟨k2, v2⟩ := g
      rw [dumpsFields]
      simp [String.data_append, List.append_assoc]
  obtain ⟨y, hy⟩ := hsplit
  refine ⟨'"', y ++ x, ?_, by decide, by decide⟩
  rw [hy, List.append_assoc, skipWs_append_ws _ _ (indent_all_ws lvl), List.cons_append,
    skipWs_not_ws (by decide)]

theorem parseArr_close (f : Nat) (s : List Char) (v : JValue) (ws1 rest : List Char)
    (h : parseVal f s = some (v, ws1 ++ (']' :: rest)))
    (hws1 : ∀ c ∈ ws1, isJsonWs c = true) :
    parseArr (f + 1) s = some ([v], rest) := by
  rw [parseArr, h]
  show (match skipWs (ws1 ++ (']' :: rest)) with
    | [] => none
    | c :: r2 =>
      if c = ',' then
        match parseArr f r2 with
        | some (vs, r3) => some (v :: vs, r3)
        | none => none
      else if c = ']' then some ([v], r2)
      else none) = some ([v], rest)
  rw [skipWs_append_ws ws1 _ hws1, skipWs_not_ws (by decide)]
  rfl

theorem parseArr_comma (f : Nat) (s : List Char) (v : JValue) (r2 : List Char)
    (vs : List JValue) (rest : List Char)
    (h : parseVal f s = some (v, ',' :: r2))
    (h2 : parseArr f r2 = some (vs, rest)) :
    parseArr (f + 1) s = some (v :: vs, rest) := by
  rw [parseArr, h]
  show (match skipWs (',' :: r2) with
    | [] => none
    | c :: r2 =>
      if c = ',' then
        match parseArr f r2 with
        | some (vs, r3) => some (v :: vs, r3)
        | none => none
      else if c = ']' then some ([v], r2)
      else none) = some (v :: vs, rest)
  rw [skipWs_not_ws (by decide)]
  show (match parseArr f r2 with
    | some (vs, r3) => some (v :: vs, r3)
    | none => none) = some (v :: vs, rest)
  rw [h2]

theorem parseObj_step (f : Nat) (ws0 : List Char) (k : String) (v : JValue)
    (y : List Char) (lvl : Nat)
    (hws0 : ∀ c ∈ ws0, isJsonWs c = true) (hk : strOk k = true)
    (hv : parseVal f (' ' :: ((dumpsVal lvl v).data ++ y)) = some (v, y)) :
    parseObjFields (f + 1) (ws0 ++ ((indentStr lvl).data ++
        ('"' :: (k.data ++ ('"' :: (':' :: (' ' :: ((dumpsVal lvl v).data ++ y)))))))) =
      (match skipWs y with
        | [] => none
        | c3 :: r5 =>
          if c3 = ',' then
            match parseObjFields f r5 with
            | some (fs, r6) => some ((k, v) :: fs, r6)
            | none => none
          else if c3 = '}' then some ([(k, v)], r5)
          else none) := by
  rw [parseObjFields, skipWs_append_ws ws0 _ hws0,
    skipWs_append_ws _ _ (indent_all_ws lvl), skipWs_not_ws (by decide)]
  show (match parseStrL (k.data ++ ('"' :: (':' :: (' ' :: ((dumpsVal lvl v).data ++ y))))) with
    | none => none
    | some (k2, r2) =>
      match skipWs r2 with
      | [] => none
      | c2 :: r3 =>
        if c2 = ':' then
          match parseVal f r3 with
          | none => none
          | some (v2, r4) =>
            match skipWs r4 with
            | [] => none
            | c3 :: r5 =>
              if c3 = ',' then
                match parseObjFields f r5 with
                | some (fs, r6) => some ((String.mk k2, v2) :: fs, r6)
                | none => none
              else if c3 = '}' then some ([(String.mk k2, v2)], r5)
              else none
        else none) = _
  rw [parseStrL_rt k.data (List.all_eq_true.mp hk)]
  show (match skipWs (':' :: (' ' :: ((dumpsVal lvl v).data ++ y))) with
    | [] => none
    | c2 :: r3 =>
      if c2 = ':' then
        match parseVal f r3 with
        | none => none
        | some (v2, r4) =>
          match skipWs r4 with
          | [] => none
          | c3 :: r5 =>
            if c3 = ',' then
              match parseObjFields f r5 with
              | some (fs, r6) => some ((String.mk k.data, v2) :: fs, r6)
              | none => none
            else if c3 = '}' then some ([(String.mk k.data, v2)], r5)
            else none
      else none) = _
  rw [skipWs_not_ws (by decide)]
  show (match parseVal f (' ' :: ((dumpsVal lvl v).data ++ y)) with
    | none => none
    | some (v2, r4) =>
      match skipWs r4 with
      | [] => none
      | c3 :: r5 =>
        if c3 = ',' then
          match parseObjFields f r5 with
          | some (fs, r6) => some ((String.mk k.data, v2) :: fs, r6)
          | none => none
        else if c3 = '}' then some ([(String.mk k.data, v2)], r5)
        else none) = _
  rw [hv]

mutual

theorem rtVal : ∀ (w : JValue) (lvl : Nat) (ws rest : List Char) (fuel : Nat),
    wfJson w = true → jfuel w ≤ fuel →
    (∀ c ∈ ws, isJsonWs c = true) →
    (∀ c, rest.head? = some c → c.isDigit = false) →
    parseVal fuel (ws ++ ((dumpsVal lvl w).data ++ rest)) = some (w, rest)
  | .jnull, lvl, ws, rest, fuel, hwf, hfuel, hws, hrest => by
    cases fuel with
    | zero => exact absurd (Nat.le_trans (jfuel_pos _) hfuel) (by omega)
    | succ f =>
      rw [parseVal_ws f ws _ hws]
      have hd : (dumpsVal lvl .jnull).data ++ rest = 'n' :: 'u' :: 'l' :: 'l' :: rest := by
        rw [dumpsVal]
        rfl
      rw [hd, parseVal_null]
  | .jbool true, lvl, ws, rest, fuel, hwf, hfuel, hws, hrest => by
    cases fuel with
    | zero => exact absurd (Nat.le_trans (jfuel_pos _) hfuel) (by omega)
    | succ f =>
      rw [parseVal_ws f ws _ hws]
      have hd : (dumpsVal lvl (.jbool true)).data ++ rest =
          't' :: 'r' :: 'u' :: 'e' :: rest := by
        rw [dumpsVal]
        rfl
      rw [hd, parseVal_true]
  | .jbool false, lvl, ws, rest, fuel, hwf, hfuel, hws, hrest => by
    cases fuel with
    | zero => exact absurd (Nat.le_trans (jfuel_pos _) hfuel) (by omega)
    | succ f =>
      rw [parseVal_ws f ws _ hws]
      have hd : (dumpsVal lvl (.jbool false)).data ++ rest =
          'f' :: 'a' :: 'l' :: 's' :: 'e' :: rest := by
        rw [dumpsVal]
        rfl
      rw [hd, parseVal_false]
  | .jint i, lvl, ws, rest, fuel, hwf, hfuel, hws, hrest => by
    cases fuel with
    | zero => exact absurd (Nat.le_trans (jfuel_pos _) hfuel) (by omega)
    | succ f =>
      rw [parseVal_ws f ws _ hws]
      have hd : (dumpsVal lvl (.jint i)).data ++ rest = (toString i).data ++ rest := by
        rw [dumpsVal]
      rw [hd, parseVal_int f i rest hrest]
  | .jstr s, lvl, ws, rest, fuel, hwf, hfuel, hws, hrest => by
    cases fuel with
    | zero => exact absurd (Nat.le_trans (jfuel_pos _) hfuel) (by omega)
    | succ f =>
      rw [parseVal_ws f ws _ hws]
      rw [wfJson] at hwf
      have hd : (dumpsVal lvl (.jstr s)).data ++ rest = '"' :: (s.data ++ '"' :: rest) := by
        rw [dumpsVal]
        simp [String.data_append, show ("\"" : String).data = ['"'] from rfl]
      rw [hd, parseVal_str f s hwf rest]
  | .jarr [], lvl, ws, rest, fuel, hwf, hfuel, hws, hrest => by
    cases fuel with
    | zero => exact absurd (Nat.le_trans (jfuel_pos _) hfuel) (by omega)
    | succ f =>
      rw [parseVal_ws f ws _ hws]
      have hd : (dumpsVal lvl (.jarr [])).data ++ rest = '[' :: ']' :: rest := by
        rw [dumpsVal]
        rfl
      rw [hd, parseVal_arr_nil]
  | .jarr (v :: vs), lvl, ws, rest, fuel, hwf, hfuel, hws, hrest => by
    cases fuel with
    | zero => exact absurd (Nat.le_trans (jfuel_pos _) hfuel) (by omega)
    | succ f =>
      rw [parseVal_ws f ws _ hws]
      rw [wfJson, wfList, Bool.and_eq_true] at hwf
      have hfu : jfuelItems v vs ≤ f := by
        rw [show jfuel (.jarr (v :: vs)) = 1 + jfuelItems v vs from by rw [jfuel]] at hfuel
        omega
      have hd : (dumpsVal lvl (.jarr (v :: vs))).data ++ rest =
          '[' :: ('\n' :: ((dumpsItems (lvl + 1) v vs).data ++
            ('\n' :: ((indentStr lvl).data ++ (']' :: rest))))) := by
        rw [dumpsVal]
        simp [String.data_append, List.append_assoc,
          show ("[\n" : String).data = ['[', '\n'] from rfl,
          show ("\n" : String).data = ['\n'] from rfl,
          show ("]" : String).data = [']'] from rfl]
      rw [hd]
      obtain ⟨c0, t0, hsk0, hne1, hne2⟩ :=
        items_skipWs_head (lvl + 1) v vs ('\n' :: ((indentStr lvl).data ++ (']' :: rest)))
      have hcons : skipWs ('\n' :: ((dumpsItems (lvl + 1) v vs).data ++
          ('\n' :: ((indentStr lvl).data ++ (']' :: rest))))) = c0 :: t0 :=
        (skipWs_append_ws ['\n'] _
          (by intro c hc; rw [List.mem_singleton] at hc; subst hc; decide)).trans hsk0
      rw [parseVal_arr_go f _ c0 t0 hcons hne1]
      rw [show parseArr f ('\n' :: ((dumpsItems (lvl + 1) v vs).data ++
          ('\n' :: ((indentStr lvl).data ++ (']' :: rest))))) = some (v :: vs, rest) from
        rtItems v vs (lvl + 1) ['\n'] ('\n' :: (indentStr lvl).data) rest f hwf.1 hwf.2 hfu
          (by intro c hc; rw [List.mem_singleton] at hc; subst hc; decide)
          (by
            intro c hc
            rcases List.mem_cons.mp hc with rfl | hc2
            · decide
            · exact indent_all_ws lvl c hc2)]
      rfl
  | .jobj [], lvl, ws, rest, fuel, hwf, hfuel, hws, hrest => by
    cases fuel with
    | zero => exact absurd (Nat.le_trans (jfuel_pos _) hfuel) (by omega)
    | succ f =>
      rw [parseVal_ws f ws _ hws]
      have hd : (dumpsVal lvl (.jobj [])).data ++ rest = '{' :: '}' :: rest := by
        rw [dumpsVal]
        rfl
      rw [hd, parseVal_obj_nil]
  | .jobj ((k, v) :: fs), lvl, ws, rest, fuel, hwf, hfuel, hws, hrest => by
    cases fuel with
    | zero => exact absurd (Nat.le_trans (jfuel_pos _) hfuel) (by omega)
    | succ f =>
      rw [parseVal_ws f ws _ hws]
      rw [wfJson] at hwf
      have hprops := (wfFields_iff _).mp hwf
      have hfu : jfuelFields v fs ≤ f := by
        rw [show jfuel (.jobj ((k, v) :: fs)) = 1 + jfuelFields v fs from by rw [jfuel]] at hfuel
        omega
      have hd : (dumpsVal lvl (.jobj ((k, v) :: fs))).data ++ rest =
          '{' :: ('\n' :: ((dumpsFields (lvl + 1) k v fs).data ++
            ('\n' :: ((indentStr lvl).data ++ ('}' :: rest))))) := by
        rw [dumpsVal]
        simp [String.data_append, List.append_assoc,
          show ("\x7b\n" : String).data = ['{', '\n'] from rfl,
          show ("\n" : String).data = ['\n'] from rfl,
          show ("\x7d" : String).data = ['}'] from rfl]
      rw [hd]
      obtain ⟨c0, t0, hsk0, hne1, hne2⟩ :=
        fields_skipWs_head (lvl + 1) k v fs ('\n' :: ((indentStr lvl).data ++ ('}' :: rest)))
      have hcons : skipWs ('\n' :: ((dumpsFields (lvl + 1) k v fs).data ++
          ('\n' :: ((indentStr lvl).data ++ ('}' :: rest))))) = c0 :: t0 :=
        (skipWs_append_ws ['\n'] _
          (by intro c hc; rw [List.mem_singleton] at hc; subst hc; decide)).trans hsk0
      rw [parseVal_obj_go f _ c0 t0 hcons hne2]
      rw [show parseObjFields f ('\n' :: ((dumpsFields (lvl + 1) k v fs).data ++
          ('\n' :: ((indentStr lvl).data ++ ('}' :: rest))))) = some ((k, v) :: fs, rest) from
        rtFields k v fs (lvl + 1) ['\n'] ('\n' :: (indentStr lvl).data) rest f
          (hprops.1 (k, v) (List.mem_cons_self _ _)).1
          (hprops.1 (k, v) (List.mem_cons_self _ _)).2
          (fun p hp => hprops.1 p (List.mem_cons_of_mem _ hp)) hfu
          (by intro c hc; rw [List.mem_singleton] at hc; subst hc; decide)
          (by
            intro c hc
            rcases List.mem_cons.mp hc with rfl | hc2
            · decide
            · exact indent_all_ws lvl c hc2)]
      simp only [Option.map_some]
      rw [dedupKeys_of_nodup _ hprops.2]
termination_by w => sizeOf w

theorem rtItems : ∀ (v : JValue) (vs : List JValue) (lvl : Nat) (ws0 ws1 rest : List Char)
    (fuel : Nat),
    wfJson v = true → wfList vs = true → jfuelItems v vs ≤ fuel →
    (∀ c ∈ ws0, isJsonWs c = true) → (∀ c ∈ ws1, isJsonWs c = true) →
    parseArr fuel (ws0 ++ ((dumpsItems lvl v vs).data ++ (ws1 ++ (']' :: rest)))) =
      some (v :: vs, rest)
  | v, [], lvl, ws0, ws1, rest, fuel, hwfv, hwfvs, hfuel, hws0, hws1 => by
    cases fuel with
    | zero => exact absurd (Nat.le_trans (jfuelItems_pos _ _) hfuel) (by omega)
    | succ f =>
      have hfu : jfuel v ≤ f := by
        rw [show jfuelItems v [] = 1 + jfuel v from by rw [jfuelItems]] at hfuel
        omega
      have hd : ws0 ++ ((dumpsItems lvl v []).data ++ (ws1 ++ (']' :: rest))) =
          (ws0 ++ (indentStr lvl).data) ++
            ((dumpsVal lvl v).data ++ (ws1 ++ (']' :: rest))) := by
        rw [dumpsItems]
        simp [String.data_append, List.append_assoc]
      rw [hd]
      have hwsm : ∀ c ∈ ws0 ++ (indentStr lvl).data, isJsonWs c = true := by
        intro c hc
        rcases List.mem_append.mp hc with h | h
        · exact hws0 c h
        · exact indent_all_ws lvl c h
      have hrest2 : ∀ c, (ws1 ++ (']' :: rest)).head? = some c → c.isDigit = false := by
        cases ws1 with
        | nil =>
          intro c hc
          rw [List.nil_append, List.head?_cons] at hc
          injection hc with hc
          subst hc
          decide
        | cons a as =>
          intro c hc
          rw [List.cons_append, List.head?_cons] at hc
          injection hc with hc
          subst hc
          exact ws_not_digit (hws1 a (List.mem_cons_self _ _))
      exact parseArr_close f _ v ws1 rest
        (rtVal v lvl (ws0 ++ (indentStr lvl).data) (ws1 ++ (']' :: rest)) f hwfv hfu hwsm
          hrest2) hws1
  | v, w :: ws2, lvl, ws0, ws1, rest, fuel, hwfv, hwfvs, hfuel, hws0, hws1 => by
    cases fuel with
    | zero => exact absurd (Nat.le_trans (jfuelItems_pos _ _) hfuel) (by omega)
    | succ f =>
      rw [wfList, Bool.and_eq_true] at hwfvs
      have hfu1 : jfuel v ≤ f := by
        rw [show jfuelItems v (w :: ws2) = 1 + jfuel v + jfuelItems w ws2 from
          by rw [jfuelItems]] at hfuel
        omega
      have hfu2 : jfuelItems w ws2 ≤ f := by
        rw [show jfuelItems v (w :: ws2) = 1 + jfuel v + jfuelItems w ws2 from
          by rw [jfuelItems]] at hfuel
        omega
      have hd : ws0 ++ ((dumpsItems lvl v (w :: ws2)).data ++ (ws1 ++ (']' :: rest))) =
          (ws0 ++ (indentStr lvl).data) ++ ((dumpsVal lvl v).data ++
            (',' :: ('\n' :: ((dumpsItems lvl w ws2).data ++ (ws1 ++ (']' :: rest)))))) := by
        rw [dumpsItems]
        simp [String.data_append, List.append_assoc,
          show (",\n" : String).data = [',', '\n'] from rfl]
      rw [hd]
      have hwsm : ∀ c ∈ ws0 ++ (indentStr lvl).data, isJsonWs c = true := by
        intro c hc
        rcases List.mem_append.mp hc with h | h
        · exact hws0 c h
        · exact indent_all_ws lvl c h
      exact parseArr_comma f _ v
        ('\n' :: ((dumpsItems lvl w ws2).data ++ (ws1 ++ (']' :: rest)))) (w :: ws2) rest
        (rtVal v lvl (ws0 ++ (indentStr lvl).data)
          (',' :: ('\n' :: ((dumpsItems lvl w ws2).data ++ (ws1 ++ (']' :: rest))))) f hwfv
          hfu1 hwsm
          (by
            intro c hc
            rw [List.head?_cons] at hc
            injection hc with hc
            subst hc
            decide))
        (show parseArr f ('\n' :: ((dumpsItems lvl w ws2).data ++ (ws1 ++ (']' :: rest)))) =
            some (w :: ws2, rest) from
          rtItems w ws2 lvl ['\n'] ws1 rest f hwfvs.1 hwfvs.2 hfu2
            (by intro c hc; rw [List.mem_singleton] at hc; subst hc; decide) hws1)
termination_by v vs => sizeOf v + sizeOf vs

theorem rtFields : ∀ (k : String) (v : JValue) (fs : List (String × JValue)) (lvl : Nat)
    (ws0 ws1 rest : List Char) (fuel : Nat),
    strOk k = true → wfJson v = true →
    (∀ p ∈ fs, strOk p.1 = true ∧ wfJson p.2 = true) →
    jfuelFields v fs ≤ fuel →
    (∀ c ∈ ws0, isJsonWs c = true) → (∀ c ∈ ws1, isJsonWs c = true) →
    parseObjFields fuel (ws0 ++ ((dumpsFields lvl k v fs).data ++ (ws1 ++ ('}' :: rest)))) =
      some ((k, v) :: fs, rest)
  | k, v, [], lvl, ws0, ws1, rest, fuel, hk, hwfv, hfs, hfuel, hws0, hws1 => by
    cases fuel with
    | zero => exact absurd (Nat.le_trans (jfuelFields_pos _ _) hfuel) (by omega)
    | succ f =>
      have hfu : jfuel v ≤ f := by
        rw [show jfuelFields v [] = 1 + jfuel v from by rw [jfuelFields]] at hfuel
        omega
      have hd : ws0 ++ ((dumpsFields lvl k v []).data ++ (ws1 ++ ('}' :: rest))) =
          ws0 ++ ((indentStr lvl).data ++ ('"' :: (k.data ++ ('"' :: (':' :: (' ' ::
            ((dumpsVal lvl v).data ++ (ws1 ++ ('}' :: rest))))))))) := by
        rw [dumpsFields]
        simp [String.data_append, List.append_assoc,
          show ("\"" : String).data = ['"'] from rfl,
          show ("\": " : String).data = ['"', ':', ' '] from rfl]
      rw [hd]
      have hrest2 : ∀ c, (ws1 ++ ('}' :: rest)).head? = some c → c.isDigit = false := by
        cases ws1 with
        | nil =>
          intro c hc
          rw [List.nil_append, List.head?_cons] at hc
          injection hc with hc
          subst hc
          decide
        | cons a as =>
          intro c hc
          rw [List.cons_append, List.head?_cons] at hc
          injection hc with hc
          subst hc
          exact ws_not_digit (hws1 a (List.mem_cons_self _ _))
      rw [parseObj_step f ws0 k v (ws1 ++ ('}' :: rest)) lvl hws0 hk
        (show parseVal f (' ' :: ((dumpsVal lvl v).data ++ (ws1 ++ ('}' :: rest)))) =
            some (v, ws1 ++ ('}' :: rest)) from
          rtVal v lvl [' '] (ws1 ++ ('}' :: rest)) f hwfv hfu
            (by intro c hc; rw [List.mem_singleton] at hc; subst hc; decide) hrest2)]
      rw [skipWs_append_ws ws1 _ hws1, skipWs_not_ws (by decide)]
      rfl
  | k, v, (k2, v2) :: gs, lvl, ws0, ws1, rest, fuel, hk, hwfv, hfs, hfuel, hws0, hws1 => by
    cases fuel with
    | zero => exact absurd (Nat.le_trans (jfuelFields_pos _ _) hfuel) (by omega)
    | succ f =>
      have hfu1 : jfuel v ≤ f := by
        rw [show jfuelFields v ((k2, v2) :: gs) = 1 + jfuel v + jfuelFields v2 gs from
          by rw [jfuelFields]] at hfuel
        omega
      have hfu2 : jfuelFields v2 gs ≤ f := by
        rw [show jfuelFields v ((k2, v2) :: gs) = 1 + jfuel v + jfuelFields v2 gs from
          by rw [jfuelFields]] at hfuel
        omega
      have hd : ws0 ++ ((dumpsFields lvl k v ((k2, v2) :: gs)).data ++
          (ws1 ++ ('}' :: rest))) =
          ws0 ++ ((indentStr lvl).data ++ ('"' :: (k.data ++ ('"' :: (':' :: (' ' ::
            ((dumpsVal lvl v).data ++ (',' :: ('\n' ::
              ((dumpsFields lvl k2 v2 gs).data ++ (ws1 ++ ('}' :: rest)))))))))))) := by
        rw [dumpsFields]
        simp [String.data_append, List.append_assoc,
          show ("\"" : String).data = ['"'] from rfl,
          show ("\": " : String).data = ['"', ':', ' '] from rfl,
          show (",\n" : String).data = [',', '\n'] from rfl]
      rw [hd]
      rw [parseObj_step f ws0 k v (',' :: ('\n' ::
          ((dumpsFields lvl k2 v2 gs).data ++ (ws1 ++ ('}' :: rest))))) lvl hws0 hk
        (show parseVal f (' ' :: ((dumpsVal lvl v).data ++ (',' :: ('\n' ::
            ((dumpsFields lvl k2 v2 gs).data ++ (ws1 ++ ('}' :: rest))))))) =
            some (v, ',' :: ('\n' ::
              ((dumpsFields lvl k2 v2 gs).data ++ (ws1 ++ ('}' :: rest))))) from
          rtVal v lvl [' ']
            (',' :: ('\n' :: ((dumpsFields lvl k2 v2 gs).data ++ (ws1 ++ ('}' :: rest))))) f
            hwfv hfu1
            (by intro c hc; rw [List.mem_singleton] at hc; subst hc; decide)
            (by
              intro c hc
              rw [List.head?_cons] at hc
              injection hc with hc
              subst hc
              decide))]
      rw [skipWs_not_ws (by decide)]
      show (match parseObjFields f ('\n' ::
          ((dumpsFields lvl k2 v2 gs).data ++ (ws1 ++ ('}' :: rest)))) with
        | some (fs2, r6) => some ((k, v) :: fs2, r6)
        | none => none) = some ((k, v) :: (k2, v2) :: gs, rest)
      rw [show parseObjFields f ('\n' ::
          ((dumpsFields lvl k2 v2 gs).data ++ (ws1 ++ ('}' :: rest)))) =
          some ((k2, v2) :: gs, rest) from
        rtFields k2 v2 gs lvl ['\n'] ws1 rest f
          (hfs (k2, v2) (List.mem_cons_self _ _)).1
          (hfs (k2, v2) (List.mem_cons_self _ _)).2
          (fun p hp => hfs p (List.mem_cons_of_mem _ hp)) hfu2
          (by intro c hc; rw [List.mem_singleton] at hc; subst hc; decide) hws1]
termination_by k v fs => sizeOf v + sizeOf fs

end

theorem loads_dumps (w : JValue) (hwf : wfJson w = true) :
    pyJsonLoads (dumpsVal 0 w) = .ok w := by
  have hfuel : jfuel w ≤ 2 * (dumpsVal 0 w).data.length + 2 := by
    have := jfuel_le_dumps w 0
    omega
  have hrt : parseVal (2 * (dumpsVal 0 w).data.length + 2) (dumpsVal 0 w).data =
      some (w, []) := by
    have h := rtVal w 0 [] [] (2 * (dumpsVal 0 w).data.length + 2) hwf hfuel
      (by intro c hc; simp at hc) (by intro c hc; simp at hc)
    rw [List.nil_append, List.append_nil] at h
    exact h
  rw [pyJsonLoads, hrt]
  rfl

theorem pyJsonLoads_wf (s : String) (v : JValue) (h : pyJsonLoads s = .ok v) :
    wfJson v = true := by
  rw [pyJsonLoads] at h
  split at h
  · rename_i v1 r1 heq
    split at h
    · injection h with h
      subst h
      exact (parse_wf _).1 _ _ _ heq
    · cases h
  · cases h

theorem containsSub_of_parts (s p : String) (x y : List Char)
    (h : s.data = x ++ (p.data ++ y)) : containsSub s p = true := by
  rw [containsSub]
  apply List.any_eq_true.mpr
  refine ⟨p.data ++ y, ?_, startsL_append_self _ _⟩
  exact (List.mem_tails _ _).mpr ⟨x, h.symm⟩

theorem containsSub_nil (s : String) : containsSub s "" = true := by
  rw [containsSub]
  apply List.any_eq_true.mpr
  refine ⟨s.data, ?_, startsL_nil_pat _⟩
  exact (List.mem_tails _ _).mpr ⟨[], by simp⟩

/-- C5: on the modelled JSON fragment, formatting with output type `json`
round-trips: when stdout parses as JSON, `format` returns the
`json.dumps(..., indent=4, sort_keys=True)` rendering of the parsed value,
and that string re-parses to exactly the recursively key-sorted value; the
key-sorting pass is a permutation of the field lists (no pair is dropped or
changed) that leaves every object's keys in nondecreasing lexicographic
order.  When stdout does not parse, `format` returns the diagnostic block
— containing the parse error message, the original command line, and the
raw stdout and stderr — and in every case `format` returns a string rather
than raising.  The pygments highlighter `jH` is display-only and modelled
as the identity. -/
theorem C5_json_roundtrip (hR jH : String → String) (hid : ∀ x, jH x = x)
    (res : CompletedProcess) :
    (∀ v, pyJsonLoads res.stdout = .ok v →
      format hR jH res "json" false = .str (dumpsVal 0 (sortJson v)) ∧
      pyJsonLoads (dumpsVal 0 (sortJson v)) = .ok (sortJson v)) ∧
    (∀ fs, List.Perm (sortPairs fs) fs ∧
      (sortPairs fs).Pairwise fun p q => strLtL q.1.data p.1.data = false) ∧
    (∀ e, pyJsonLoads res.stdout = .error e →
      format hR jH res "json" false = .str (jsonErrorBlock e res) ∧
      containsSub (jsonErrorBlock e res) e = true ∧
      containsSub (jsonErrorBlock e res) res.args = true ∧
      containsSub (jsonErrorBlock e res) res.stdout = true ∧
      containsSub (jsonErrorBlock e res) res.stderr = true) ∧
    (∃ s, format hR jH res "json" false = FormatOut.str s) := by
  have hdisp : formatDispatch hR jH res "json" =
      (match pyJsonLoads res.stdout with
        | .ok j => some (.str (jH (dumpsVal 0 (sortJson j))))
        | .error e => some (.str (jsonErrorBlock e res))) := by
    rw [formatDispatch]
    show (if ("json" : String) = "std" then some (FmtVal.proc res)
      else if ("json" : String) = "json" then
        match pyJsonLoads res.stdout with
        | .ok j => some (.str (jH (dumpsVal 0 (sortJson j))))
        | .error e => some (.str (jsonErrorBlock e res))
      else if ("json" : String) = "html" then some (.str (hR res.stdout))
      else none) = _
    rw [if_neg (by decide), if_pos rfl]
  have hfmt : ∀ s, formatDispatch hR jH res "json" = some (.str s) →
      format hR jH res "json" false = .str s := by
    intro s h
    rw [format, h]
    rfl
  refine ⟨?_, fun fs => ⟨sortPairs_perm fs, sortPairs_sorted fs⟩, ?_, ?_⟩
  · intro v hv
    have hwf := pyJsonLoads_wf _ _ hv
    have hfd : formatDispatch hR jH res "json" = some (.str (dumpsVal 0 (sortJson v))) := by
      rw [hdisp, hv]
      show some (FmtVal.str (jH (dumpsVal 0 (sortJson v)))) = _
      rw [hid]
    exact ⟨hfmt _ hfd, loads_dumps _ (wf_sortJson v hwf)⟩
  · intro e he
    have hfd : formatDispatch hR jH res "json" = some (.str (jsonErrorBlock e res)) := by
      rw [hdisp, he]
    refine ⟨hfmt _ hfd, ?_, ?_, ?_, ?_⟩
    · exact containsSub_of_parts _ _ ("\nError: ").data
        (("\nInput: ").data ++ (res.args.data ++ (("\nOutput: ").data ++
          ((default res.stdout).data ++ (("\nMessage: ").data ++
            ((default res.stderr).data ++ ("\n").data))))))
        (by simp [jsonErrorBlock, String.data_append, List.append_assoc])
    · exact containsSub_of_parts _ _ (("\nError: ").data ++ (e.data ++ ("\nInput: ").data))
        (("\nOutput: ").data ++ ((default res.stdout).data ++ (("\nMessage: ").data ++
          ((default res.stderr).data ++ ("\n").data))))
        (by simp [jsonErrorBlock, String.data_append, List.append_assoc])
    · by_cases hstd : res.stdout = ""
      · rw [hstd]
        exact containsSub_nil _
      · have hdef : default res.stdout = res.stdout := by rw [default, if_pos hstd]
        exact containsSub_of_parts _ _
          (("\nError: ").data ++ (e.data ++ (("\nInput: ").data ++ (res.args.data ++
            ("\nOutput: ").data))))
          (("\nMessage: ").data ++ ((default res.stderr).data ++ ("\n").data))
          (by simp [jsonErrorBlock, String.data_append, List.append_assoc, hdef])
    · by_cases herr : res.stderr = ""
      · rw [herr]
        exact containsSub_nil _
      · have hdef : default res.stderr = res.stderr := by rw [default, if_pos herr]
        exact containsSub_of_parts _ _
          (("\nError: ").data ++ (e.data ++ (("\nInput: ").data ++ (res.args.data ++
            (("\nOutput: ").data ++ ((default res.stdout).data ++ ("\nMessage: ").data))))))
          (("\n").data)
          (by simp [jsonErrorBlock, String.data_append, List.append_assoc, hdef])
  · cases hpj : pyJsonLoads res.stdout with
    | ok v =>
      refine ⟨jH (dumpsVal 0 (sortJson v)), hfmt _ ?_⟩
      rw [hdisp, hpj]
    | error e =>
      refine ⟨jsonErrorBlock e res, hfmt _ ?_⟩
      rw [hdisp, hpj]

/-- Witness for C5 at a concrete execution result whose stdout is
`{"b": 1, "a": 2}`: the theorem applies with the identity highlighter. -/
theorem C5_json_roundtrip_witness :
    (∀ v, pyJsonLoads (CompletedProcess.mk "cmd" 0 "\x7b\"b\": 1, \"a\": 2\x7d" "").stdout =
        .ok v →
      format (fun x => x) (fun x => x)
          (CompletedProcess.mk "cmd" 0 "\x7b\"b\": 1, \"a\": 2\x7d" "") "json" false =
        .str (dumpsVal 0 (sortJson v)) ∧
      pyJsonLoads (dumpsVal 0 (sortJson v)) = .ok (sortJson v)) ∧
    (∀ fs, List.Perm (sortPairs fs) fs ∧
      (sortPairs fs).Pairwise fun p q => strLtL q.1.data p.1.data = false) ∧
    (∀ e, pyJsonLoads (CompletedProcess.mk "cmd" 0 "\x7b\"b\": 1, \"a\": 2\x7d" "").stdout =
        .error e →
      format (fun x => x) (fun x => x)
          (CompletedProcess.mk "cmd" 0 "\x7b\"b\": 1, \"a\": 2\x7d" "") "json" false =
        .str (jsonErrorBlock e (CompletedProcess.mk "cmd" 0 "\x7b\"b\": 1, \"a\": 2\x7d" "")) ∧
      containsSub (jsonErrorBlock e (CompletedProcess.mk "cmd" 0 "\x7b\"b\": 1, \"a\": 2\x7d" ""))
        e = true ∧
      containsSub (jsonErrorBlock e (CompletedProcess.mk "cmd" 0 "\x7b\"b\": 1, \"a\": 2\x7d" ""))
        (CompletedProcess.mk "cmd" 0 "\x7b\"b\": 1, \"a\": 2\x7d" "").args = true ∧
      containsSub (jsonErrorBlock e (CompletedProcess.mk "cmd" 0 "\x7b\"b\": 1, \"a\": 2\x7d" ""))
        (CompletedProcess.mk "cmd" 0 "\x7b\"b\": 1, \"a\": 2\x7d" "").stdout = true ∧
      containsSub (jsonErrorBlock e (CompletedProcess.mk "cmd" 0 "\x7b\"b\": 1, \"a\": 2\x7d" ""))
        (CompletedProcess.mk "cmd" 0 "\x7b\"b\": 1, \"a\": 2\x7d" "").stderr = true) ∧
    (∃ s, format (fun x => x) (fun x => x)
        (CompletedProcess.mk "cmd" 0 "\x7b\"b\": 1, \"a\": 2\x7d" "") "json" false =
      FormatOut.str s) :=
  C5_json_roundtrip (fun x => x) (fun x => x) (fun x => rfl)
    (CompletedProcess.mk "cmd" 0 "\x7b\"b\": 1, \"a\": 2\x7d" "")

end PromptAble
